import Mathlib

/-!
Shallow embedding of the IPL auction simulator server (`server.js`) and the
properties verified about it.  The room/auction state machine, timer logic,
squad collection and the match-simulation engine are translated function by
function from the source; JavaScript object mutation becomes functional
record update, object references into the auction queue become indices, and
the ambient randomness of the simulation engine becomes an explicit stream
of rational draws in `[0,1)`.  Presentation-only fields of the source
(commentary strings, economy/overs display strings) are omitted; every field
that feeds back into control flow or recorded state is kept.
-/

namespace IPL

/-- Exact rational arithmetic represented as unnormalized fractions, used
for every JavaScript number that is not an integer (random draws,
probability thresholds, run rates, millisecond quotients).  Fractions are
kept unnormalized so that every operation unfolds by pure computation;
every value built by the embedding has a positive denominator. -/
structure Frac where
  num : Int
  den : Int
deriving DecidableEq

/-- Embed an integer. -/
def Frac.ofInt (n : Int) : Frac := ⟨n, 1⟩

/-- Fraction addition. -/
protected def Frac.add (a b : Frac) : Frac :=
  ⟨a.num * b.den + b.num * a.den, a.den * b.den⟩

/-- Fraction subtraction. -/
protected def Frac.sub (a b : Frac) : Frac :=
  ⟨a.num * b.den - b.num * a.den, a.den * b.den⟩

/-- Fraction multiplication. -/
protected def Frac.mul (a b : Frac) : Frac := ⟨a.num * b.num, a.den * b.den⟩

/-- Fraction negation. -/
protected def Frac.neg (a : Frac) : Frac := ⟨-a.num, a.den⟩

/-- Fraction division (keeping the denominator positive when the divisor
is negative; division by zero never occurs in the embedded code). -/
protected def Frac.div (a b : Frac) : Frac :=
  if b.num < 0 then ⟨-(a.num * b.den), -(a.den * b.num)⟩
  else ⟨a.num * b.den, a.den * b.num⟩

/-- Strict comparison by cross multiplication (denominators positive). -/
protected def Frac.lt (a b : Frac) : Prop := a.num * b.den < b.num * a.den

/-- Non-strict comparison by cross multiplication. -/
protected def Frac.le (a b : Frac) : Prop := a.num * b.den ≤ b.num * a.den

instance : Add Frac := ⟨Frac.add⟩

instance : Sub Frac := ⟨Frac.sub⟩

instance : Mul Frac := ⟨Frac.mul⟩

instance : Neg Frac := ⟨Frac.neg⟩

instance : Div Frac := ⟨Frac.div⟩

instance : LT Frac := ⟨Frac.lt⟩

instance : LE Frac := ⟨Frac.le⟩

instance (a b : Frac) : Decidable (a < b) :=
  inferInstanceAs (Decidable (a.num * b.den < b.num * a.den))

instance (a b : Frac) : Decidable (a ≤ b) :=
  inferInstanceAs (Decidable (a.num * b.den ≤ b.num * a.den))

instance (n : Nat) : OfNat Frac n := ⟨⟨(n : Int), 1⟩⟩

instance : OfScientific Frac :=
  ⟨fun m s e =>
    if s then ⟨(m : Int), ((10 : Nat) ^ e : Nat)⟩
    else ⟨(m : Int) * (10 : Int) ^ e, 1⟩⟩

/-- `Math.max` (used only with the positive-denominator invariant). -/
protected def Frac.max (a b : Frac) : Frac := if a ≤ b then b else a

/-- `Math.min`. -/
protected def Frac.min (a b : Frac) : Frac := if a ≤ b then a else b

/-- `Math.floor` on an exact rational: floor division of the numerator by
the (positive) denominator. -/
protected def Frac.floor (a : Frac) : Int := a.num.fdiv a.den

/-- `Math.ceil` on an exact rational. -/
protected def Frac.ceil (a : Frac) : Int := -Frac.floor (Frac.neg a)

/-- JavaScript falsiness of a number: whether it is zero. -/
protected def Frac.isZero (a : Frac) : Bool := a.num == 0

/-- `Math.ceil(a / b)` for integer milliseconds, exact rational division as
in JavaScript floating arithmetic on these small integer inputs. -/
def jsCeilDiv (a b : Int) : Int := Frac.ceil (Frac.ofInt a / Frac.ofInt b)

/-- `String.prototype.toLowerCase`, computed character by character. -/
def jsToLower (s : String) : String := String.mk (s.toList.map Char.toLower)

/-- `String.prototype.includes`: substring containment. -/
def jsIncludes (s pat : String) : Bool :=
  s.toList.tails.any (fun t => pat.toList.isPrefixOf t)

/-- `AUCTION_TIMER_SECONDS` from the server. -/
def AUCTION_TIMER_SECONDS : Int := 10

/-- Resolution status of a lot (`status` strings "SOLD"/"UNSOLD"). -/
inductive LotStatus
  | SOLD
  | UNSOLD
deriving DecidableEq

/-- One auction-queue entry (an athlete up for bid).  `status` is absent
(`undefined`) until the sale is processed. -/
structure Lot where
  name : String
  roleKey : String
  basePrice : Int
  status : Option LotStatus := none
  soldPrice : Option Int := none
deriving DecidableEq

/-- A roster entry pushed by `processSale`: the lot's identifying fields
together with the final price. -/
structure RosterEntry where
  name : String
  roleKey : String
  price : Int
deriving DecidableEq

/-- One franchise slot of a room (`r.teams[i]`). -/
structure Team where
  bidKey : String
  name : String
  budget : Int
  isTaken : Bool := false
  ownerPlayerId : Option String := none
  ownerSocketId : Option String := none
  roster : List RosterEntry := []
  totalSpent : Int := 0
  totalPlayers : Nat := 0
deriving DecidableEq

/-- A player object as carried inside `playing11` lists. -/
structure SimPlayer where
  name : String
  roleKey : String
deriving DecidableEq

/-- A stored squad submission (`r.squads[teamKey]`). -/
structure Squad where
  playing11 : List SimPlayer
  impact : Option SimPlayer := none
  captain : Option String := none
deriving DecidableEq

/-- Room state, the fields of the object built by the `create_room`
handler.  `currentPlayer` is an index into `auctionQueue` because in the
source it is a live reference to the queue entry (mutating it mutates the
queue); `timerRunning` models `timerInterval` being non-null. -/
structure Room where
  password : String
  users : List String
  teams : List Team
  auctionQueue : List Lot
  auctionIndex : Nat
  currentBid : Int
  currentBidder : Option String
  currentPlayer : Option Nat
  timer : Int
  timerRunning : Bool
  timerPaused : Bool
  timerEndTime : Int
  isActive : Bool
  adminSocketId : String
  adminPlayerId : String
  sellingInProgress : Bool
  squads : List (String × Squad)
deriving DecidableEq

/-- Outbound events emitted by the handlers (payloads reduced to the data
the properties talk about). -/
inductive Ev
  | timerTick (t : Int)
  | timerStatus (paused : Bool)
  | timerEnded
  | updateLot (lotNumber : Nat) (currentBid : Int)
  | bidUpdate (amount : Int) (teamKey : String)
  | saleFinalized (isUnsold : Bool) (price : Int)
  | openSquadSelection
  | errorMessage (msg : String)
  | squadSubmissionUpdate (submittedCount totalTeams : Nat)
  | simulationTriggered
deriving DecidableEq

/-- Fallback values for out-of-range list access (never reached on the
states the theorems quantify over; JavaScript would yield `undefined`). -/
def dummyLot : Lot := { name := "", roleKey := "", basePrice := 0 }

/-- Fallback team for out-of-range access. -/
def dummyTeam : Team := { bidKey := "", name := "", budget := 0 }

/-- `startTimer(roomId)`: restart the countdown unless it is already
running nearly full. -/
def startTimer (now : Int) (r : Room) : Room × List Ev :=
  if r.timerRunning ∧ r.timer > AUCTION_TIMER_SECONDS - 2 then (r, [])
  else
    let r1 : Room := { r with
      timer := AUCTION_TIMER_SECONDS
      timerPaused := false
      timerEndTime := now + AUCTION_TIMER_SECONDS * 1000
      timerRunning := true }
    (r1, [Ev.timerTick r1.timer, Ev.timerStatus false])

/-- `stopTimer(roomId)`: clear the recurring callback. -/
def stopTimer (r : Room) : Room :=
  if r.timerRunning then { r with timerRunning := false } else r

/-- First index of the team with the given bid key (`teams.find`). -/
def findTeamIdx (ts : List Team) (key : String) : Option Nat :=
  ts.findIdx? (fun t => t.bidKey == key)

/-- `processSale(roomId)`: resolve the current lot once, guarded by the
`sellingInProgress` flag; the 4 s deferred continuation is modelled
separately as `saleCooldown`. -/
def processSale (r : Room) : Room × List Ev :=
  match r.currentPlayer with
  | none => (r, [])
  | some idx =>
    if r.sellingInProgress then (r, [])
    else
      let r1 := stopTimer { r with sellingInProgress := true }
      let lot := r1.auctionQueue.getD idx dummyLot
      let bidderIdx : Option Nat :=
        match r1.currentBidder with
        | none => none
        | some key => findTeamIdx r1.teams key
      match bidderIdx with
      | some ti =>
        let team := r1.teams.getD ti dummyTeam
        let soldPrice := r1.currentBid
        let team1 : Team := { team with
          roster := team.roster ++
            [{ name := lot.name, roleKey := lot.roleKey, price := soldPrice }]
          totalSpent := team.totalSpent + soldPrice
          totalPlayers := team.totalPlayers + 1
          budget := team.budget - soldPrice }
        let r2 : Room := { r1 with
          teams := r1.teams.set ti team1
          auctionQueue := r1.auctionQueue.set idx
            { lot with status := some LotStatus.SOLD, soldPrice := some soldPrice }
          auctionIndex := r1.auctionIndex + 1 }
        (r2, [Ev.timerEnded, Ev.saleFinalized false soldPrice])
      | none =>
        let r2 : Room := { r1 with
          auctionQueue := r1.auctionQueue.set idx
            { lot with status := some LotStatus.UNSOLD, soldPrice := some 0 }
          auctionIndex := r1.auctionIndex + 1 }
        (r2, [Ev.timerEnded, Ev.saleFinalized true 0])

/-- The recursion of `startNextLot`, made structural on a fuel that bounds
the number of resolved lots that can be skipped; the fuel case 0 is
unreachable from the wrapper below. -/
def startNextLotGo (now : Int) : Nat → Room → Room × List Ev
  | 0, r => (r, [])
  | fuel + 1, r =>
    if r.auctionQueue.length ≤ r.auctionIndex then
      (r, [Ev.openSquadSelection])
    else
      let lot := r.auctionQueue.getD r.auctionIndex dummyLot
      let r1 : Room := { r with currentPlayer := some r.auctionIndex }
      if lot.status.isSome then
        startNextLotGo now fuel { r1 with auctionIndex := r1.auctionIndex + 1 }
      else
        let r2 : Room := { r1 with
          currentBid := lot.basePrice
          currentBidder := none
          sellingInProgress := false }
        let s := startTimer now r2
        (s.1, Ev.updateLot (r2.auctionIndex + 1) r2.currentBid :: s.2)

/-- `startNextLot(roomId)`: advance to the next unresolved lot, skipping
lots that already carry a status, or open squad selection when the queue is
exhausted. -/
def startNextLot (now : Int) (r : Room) : Room × List Ev :=
  startNextLotGo now (r.auctionQueue.length + 1) r

/-- The body of the 4-second `setTimeout` scheduled by `processSale`:
clear the selling flag and advance. -/
def saleCooldown (now : Int) (r : Room) : Room × List Ev :=
  startNextLot now { r with sellingInProgress := false }

/-- The recurring 1-second timer callback: while paused, drag the deadline
forward; otherwise recompute remaining time from the system clock and fire
the sale on zero-crossing. -/
def timerTickEvent (now : Int) (r : Room) : Room × List Ev :=
  if ¬ r.timerRunning then (r, [])
  else if r.timerPaused then
    ({ r with timerEndTime := r.timerEndTime + 1000 }, [])
  else
    let remaining := jsCeilDiv (r.timerEndTime - now) 1000
    let r1 : Room := { r with timer := remaining }
    if remaining ≤ 0 then
      let s := processSale r1
      (s.1, Ev.timerTick remaining :: s.2)
    else (r1, [Ev.timerTick remaining])

/-- The `place_bid` handler. -/
def place_bid (sid pid : String) (teamKey : String) (amount : Int)
    (now : Int) (r : Room) : Room × List Ev :=
  if ¬ r.isActive ∨ r.timerPaused ∨ r.sellingInProgress ∨ r.currentPlayer.isNone then
    (r, [])
  else
    match findTeamIdx r.teams teamKey with
    | none => (r, [])
    | some ti =>
      let team := r.teams.getD ti dummyTeam
      if team.ownerSocketId ≠ some sid ∧ team.ownerPlayerId ≠ some pid then
        (r, [Ev.errorMessage "Authorization Failed"])
      else
        let team1 := if team.ownerSocketId = some sid then team
                     else { team with ownerSocketId := some sid }
        let r1 : Room := { r with teams := r.teams.set ti team1 }
        if r.currentBidder = some teamKey then (r1, [])
        else if team1.budget < amount then
          (r1, [Ev.errorMessage "No Budget!"])
        else if amount ≤ r.currentBid ∧ r.currentBidder.isSome then
          (r1, [Ev.errorMessage "Bid too low!"])
        else
          let r2 : Room := { r1 with currentBid := amount, currentBidder := some teamKey }
          let s := startTimer now r2
          (s.1, Ev.bidUpdate amount teamKey :: s.2)

/-- `isAdmin(socket)`. -/
def isAdmin (sid : String) (r : Room) : Bool := r.adminSocketId == sid

/-- The `toggle_timer` handler (admin only). -/
def toggle_timer (sid : String) (r : Room) : Room × List Ev :=
  if isAdmin sid r then
    let r1 : Room := { r with timerPaused := !r.timerPaused }
    (r1, [Ev.timerStatus r1.timerPaused])
  else (r, [])

/-- The `finalize_sale` handler (admin only; client parameters ignored). -/
def finalize_sale (sid : String) (r : Room) : Room × List Ev :=
  if isAdmin sid r then processSale r else (r, [])

/-- The `start_auction` handler: snapshot the claimed teams (resetting
rosters and spend counters, not budgets), install the client-supplied
queue, activate, and start the first lot. -/
def start_auction (sid : String) (queue : List Lot) (now : Int) (r : Room) :
    Room × List Ev :=
  if isAdmin sid r then
    let activeTeams := r.teams.filter (fun t => t.isTaken)
    let r1 : Room := { r with
      teams := activeTeams.map (fun t =>
        { t with roster := [], totalSpent := 0, totalPlayers := 0 })
      auctionQueue := queue
      isActive := true }
    startNextLot now r1
  else (r, [])

/-- JavaScript object property assignment on a string-keyed map: replace
the existing binding or append a new one. -/
def jsObjSet (l : List (String × Squad)) (k : String) (v : Squad) :
    List (String × Squad) :=
  if (l.lookup k).isSome then
    l.map (fun p => cond (p.1 == k) (k, v) p)
  else l ++ [(k, v)]

/-- The `end_auction_trigger` handler (admin only): stop the clock,
deactivate the auction, open squad selection. -/
def end_auction_trigger (sid : String) (r : Room) : Room × List Ev :=
  if isAdmin sid r then
    let r1 := stopTimer r
    ({ r1 with isActive := false }, [Ev.openSquadSelection])
  else (r, [])

/-- The `submit_squad` handler: store the submission unconditionally,
broadcast the count, and trigger the simulation when every claimed team
has a stored squad. -/
def submit_squad (teamKey : String) (sq : Squad) (r : Room) : Room × List Ev :=
  let squads1 := jsObjSet r.squads teamKey sq
  let r1 : Room := { r with squads := squads1 }
  let total := (r.teams.filter (fun t => t.isTaken)).length
  (r1, Ev.squadSubmissionUpdate squads1.length total ::
    (if squads1.length = total then [Ev.simulationTriggered] else []))

/-- The `disconnect` handler body for a socket joined to a room: the socket
is removed from the user list; nothing else happens to the room. -/
def disconnectRoom (sid : String) (r : Room) : Room :=
  { r with users := r.users.filter (fun u => u ≠ sid) }

/-- The process-wide `rooms` object: room code to room state. -/
abbrev Registry := List (String × Room)

/-- The fresh room object built by `create_room`. -/
def newRoom (password sid pid : String) : Room :=
  { password := password
    users := [sid]
    teams := []
    auctionQueue := []
    auctionIndex := 0
    currentBid := 0
    currentBidder := none
    currentPlayer := none
    timer := AUCTION_TIMER_SECONDS
    timerRunning := false
    timerPaused := true
    timerEndTime := 0
    isActive := false
    adminSocketId := sid
    adminPlayerId := pid
    sellingInProgress := false
    squads := [] }

/-- The `create_room` handler over the registry. -/
def create_room (sid pid roomId password : String) (reg : Registry) :
    Registry × List Ev :=
  if (reg.lookup roomId).isSome then
    (reg, [Ev.errorMessage "Room Exists!"])
  else
    (reg ++ [(roomId, newRoom password sid pid)], [])

/-- The `disconnect` handler over the registry: update the user's room if
joined; no room is ever deleted. -/
def disconnect (sid : String) (roomId : String) (reg : Registry) : Registry :=
  reg.map (fun p => cond (p.1 == roomId) (p.1, disconnectRoom sid p.2) p)

/-! ### Simulation engine -/

/-- A tournament participant produced by `runSimulationLogic`: the team
together with its (auto-filled) playing eleven and captain name. -/
structure TourneyTeam where
  team : Team
  playing11 : List SimPlayer
  captain : Option String
deriving DecidableEq

/-- The per-team body of the preparation map inside `runSimulationLogic`:
auto-fill the playing eleven from the roster (players already in the
lineup skipped), then choose the captain name. -/
def prepareTeam (squads : List (String × Squad)) (t : Team) : TourneyTeam :=
  let squadData := squads.lookup t.bidKey
  let p11a : List SimPlayer := match squadData with
    | some sq => sq.playing11
    | none => []
  let p11 : List SimPlayer :=
    if p11a.length < 11 ∧ 0 < t.roster.length then
      let needed := 11 - p11a.length
      let available := t.roster.filter (fun p =>
        ¬ p11a.any (fun x => x.name == p.name))
      p11a ++ (available.map (fun e =>
        ({ name := e.name, roleKey := e.roleKey } : SimPlayer))).take needed
    else p11a
  let captainName : Option String := match squadData with
    | some sq => sq.captain
    | none => match p11 with
      | p :: _ => some p.name
      | [] => some "None"
  { team := t, playing11 := p11, captain := captainName }

/-- Team preparation inside `runSimulationLogic`: claimed teams only, the
playing eleven auto-filled from the roster (skipping players already in the
lineup), teams with an empty lineup dropped. -/
def prepareTourneyTeams (r : Room) : List TourneyTeam :=
  ((r.teams.filter (fun t => t.isTaken)).map (prepareTeam r.squads)).filter
    (fun t => 0 < t.playing11.length)

/-- The guard of `runSimulationLogic`: with fewer than two prepared teams
the engine emits a simulation error and produces no result; otherwise the
prepared teams are handed to the tournament engine. -/
def runSimulationLogic (r : Room) : Except String (List TourneyTeam) :=
  let tourneyTeams := prepareTourneyTeams r
  if tourneyTeams.length < 2 then
    Except.error "Need at least 2 teams with players to simulate!"
  else
    Except.ok tourneyTeams

/-- `getLuck`: `Math.floor(Math.random() * 10) + 1` on one draw. -/
def getLuck (q : Frac) : Int := Frac.floor (q * 10) + 1

/-- `getPriority`: first matching key of `ROLE_PRIORITY` in insertion
order; 99 when the role key is empty or matches nothing. -/
def getPriority (roleKey : String) : Nat :=
  if roleKey = "" then 99
  else
    let lower := jsToLower roleKey
    if jsIncludes lower "opener" then 1
    else if jsIncludes lower "wk" then 1
    else if jsIncludes lower "middle order" then 2
    else if jsIncludes lower "batter" then 2
    else if jsIncludes lower "finisher" then 3
    else if jsIncludes lower "all-rounder" then 4
    else if jsIncludes lower "ar" then 4
    else if jsIncludes lower "allrounder" then 4
    else if jsIncludes lower "spinner" then 5
    else if jsIncludes lower "spin" then 5
    else if jsIncludes lower "fast bowler" then 6
    else if jsIncludes lower "bowler" then 6
    else if jsIncludes lower "fast" then 6
    else if jsIncludes lower "pace" then 6
    else 99

/-- Stable insertion of a player into a list already ordered by role
priority: the player goes after every element of smaller or equal
priority. -/
def insertByPriority (a : SimPlayer) : List SimPlayer → List SimPlayer
  | [] => [a]
  | b :: bs =>
    if getPriority b.roleKey ≤ getPriority a.roleKey then
      b :: insertByPriority a bs
    else a :: b :: bs

/-- The batting-lineup sort
`sort((a, b) => getPriority(a.roleKey) - getPriority(b.roleKey))`: a stable
comparison sort, modelled as stable insertion sort (same output: ordered by
priority, ties in original order). -/
def sortByPriority (l : List SimPlayer) : List SimPlayer :=
  l.foldl (fun acc a => insertByPriority a acc) []

/-- The five entries of `BATTER_PROFILE`. -/
inductive BatProfile
  | opener
  | anchor
  | finisher
  | allrounder
  | bowler
deriving DecidableEq

/-- Aggression component of a batter profile. -/
def aggression : BatProfile → Frac
  | BatProfile.opener => 0.6
  | BatProfile.anchor => 0.35
  | BatProfile.finisher => 0.9
  | BatProfile.allrounder => 0.55
  | BatProfile.bowler => 0.2

/-- Risk component of a batter profile. -/
def risk : BatProfile → Frac
  | BatProfile.opener => 0.4
  | BatProfile.anchor => 0.2
  | BatProfile.finisher => 0.65
  | BatProfile.allrounder => 0.4
  | BatProfile.bowler => 0.7

/-- `getBatterProfile`. -/
def getBatterProfile (roleKey : String) : BatProfile :=
  let r := jsToLower roleKey
  if jsIncludes r "finisher" then BatProfile.finisher
  else if jsIncludes r "opener" then BatProfile.opener
  else if jsIncludes r "all" then BatProfile.allrounder
  else if jsIncludes r "bowl" ∨ jsIncludes r "spin" ∨ jsIncludes r "fast" then
    BatProfile.bowler
  else BatProfile.anchor

/-- Innings phases. -/
inductive Phase
  | powerplay
  | middle
  | death
deriving DecidableEq

/-- `getPhase`. -/
def getPhase (over : Nat) : Phase :=
  if over ≤ 6 then Phase.powerplay
  else if over ≤ 15 then Phase.middle
  else Phase.death

/-- `chooseShot`: boundary probability from profile, phase and chase
pressure, with the anchor cap and the global 0.95 cap. -/
def chooseShot (profile : BatProfile) (phase : Phase) (pressure : Frac) : Frac :=
  let bc0 := aggression profile
  let bc1 := if phase = Phase.powerplay then bc0 + 0.1 else bc0
  let bc2 := if phase = Phase.death then bc1 + 0.25 else bc1
  let bc3 := if pressure > 9 then bc2 + 0.2 else bc2
  let bc4 :=
    if profile = BatProfile.anchor ∧ phase ≠ Phase.death ∧ pressure < 8 then
      Frac.min bc3 0.5
    else bc3
  Frac.min bc4 0.95

/-- Bowler types. -/
inductive BowlerType
  | spin
  | pace
  | medium
deriving DecidableEq

/-- `getBowlerType`. -/
def getBowlerType (roleKey : String) : BowlerType :=
  let r := jsToLower roleKey
  if jsIncludes r "spin" then BowlerType.spin
  else if jsIncludes r "fast" ∨ jsIncludes r "pace" then BowlerType.pace
  else BowlerType.medium

/-- The dot/wicket adjustment returned by `bowlerImpact`. -/
structure BowlImpact where
  dot : Frac
  wicket : Frac
deriving DecidableEq

/-- `bowlerImpact`. -/
def bowlerImpact (t : BowlerType) (phase : Phase) : BowlImpact :=
  if t = BowlerType.spin ∧ phase = Phase.middle then { dot := 0.2, wicket := 0.08 }
  else if t = BowlerType.pace ∧ phase = Phase.death then { dot := 0.1, wicket := 0.15 }
  else { dot := 0.05, wicket := 0.05 }

/-- Outcome tags of `playBall` (`result.type`). -/
inductive BType
  | runsType
  | outType
  | four
  | six
deriving DecidableEq

/-- Outcome of one delivery (commentary strings omitted). -/
structure BallResult where
  runs : Int
  isOut : Bool
  rtype : BType
deriving DecidableEq

/-- Context handed to `playBall`. -/
structure BallContext where
  over : Nat
  wickets : Nat
  requiredRunRate : Option Frac
deriving DecidableEq

/-- `playBall`: resolve one delivery, consuming draws `k, k+1, …` from the
stream; returns the outcome and the next unconsumed draw index. -/
def playBall (batsman bowler : SimPlayer) (ctx : BallContext)
    (rand : Nat → Frac) (k : Nat) : BallResult × Nat :=
  let luck := getLuck (rand k)
  let profile := getBatterProfile batsman.roleKey
  let phase := getPhase ctx.over
  let pressure : Frac := match ctx.requiredRunRate with
    | none => 8
    | some q => if q.isZero then 8 else q
  let bowlerType := getBowlerType bowler.roleKey
  let impact := bowlerImpact bowlerType phase
  let luckFactor : Frac := (Frac.ofInt (10 - luck)) * 0.02
  if rand (k + 1) < (risk profile + impact.wicket + luckFactor) * 0.15 then
    ({ runs := 0, isOut := true, rtype := BType.outType }, k + 2)
  else if rand (k + 2) < impact.dot then
    ({ runs := 0, isOut := false, rtype := BType.runsType }, k + 3)
  else
    let boundaryChance := chooseShot profile phase pressure
    if rand (k + 3) < boundaryChance * (Frac.ofInt luck / 5) then
      let runs0 : Int := if rand (k + 4) < 0.65 then 4 else 6
      let runs1 : Int :=
        if profile = BatProfile.bowler ∧ runs0 = 6 ∧ luck < 10 then 4 else runs0
      ({ runs := runs1, isOut := false,
         rtype := if runs1 = 4 then BType.four else BType.six }, k + 5)
    else
      ({ runs := Frac.floor (rand (k + 4) * 3) + 1, isOut := false,
         rtype := BType.runsType }, k + 5)

/-- Batter dismissal state strings of the scorecard. -/
inductive BatStatus
  | dnb
  | notOut
  | outStatus
deriving DecidableEq

/-- One batting scorecard row. -/
structure BatCardEntry where
  name : String
  runs : Int
  balls : Nat
  fours : Nat
  sixes : Nat
  status : BatStatus
deriving DecidableEq

/-- One bowling scorecard row (`bowlCardMap[name]`; the derived
economy/overs display strings are omitted). -/
structure BowlCardEntry where
  name : String
  runs : Int
  wkts : Nat
  balls : Nat
deriving DecidableEq

/-- One row of the tournament-wide `allStats` accumulator. -/
structure PlayerStat where
  name : String
  runs : Int
  wkts : Nat
  pts : Int
  fours : Nat
  sixes : Nat
deriving DecidableEq

/-- `getPlayerStat` followed by a mutation: create the row if absent, then
update it in place. -/
def statUpdate (stats : List PlayerStat) (n : String)
    (f : PlayerStat → PlayerStat) : List PlayerStat :=
  let stats1 := if stats.any (fun s => s.name == n) then stats
    else stats ++ [{ name := n, runs := 0, wkts := 0, pts := 0, fours := 0, sixes := 0 }]
  stats1.map (fun s => if s.name == n then f s else s)

/-- Initialize a bowling-card row if the name is not yet present. -/
def bowlInit (m : List BowlCardEntry) (n : String) : List BowlCardEntry :=
  if m.any (fun e => e.name == n) then m
  else m ++ [{ name := n, runs := 0, wkts := 0, balls := 0 }]

/-- Balls recorded so far against a name (0 when the row is absent). -/
def ballsOf (m : List BowlCardEntry) (n : String) : Nat :=
  ((m.find? (fun e => e.name == n)).map (fun e => e.balls)).getD 0

/-- Mutate the bowling-card row of a name in place. -/
def bowlUpdate (m : List BowlCardEntry) (n : String)
    (f : BowlCardEntry → BowlCardEntry) : List BowlCardEntry :=
  m.map (fun e => if e.name == n then f e else e)

/-- Fallback player for out-of-range access. -/
def dummyPlayer : SimPlayer := { name := "", roleKey := "" }

/-- The quota scan of the bowler-rotation `while` loop: starting at the
rotation index, walk the bowler list (initializing card rows on the way)
until a bowler with fewer than 24 balls is found or every attempt is
spent. -/
def scanQuota (bowlers : List SimPlayer) :
    Nat → Nat → List BowlCardEntry → List BowlCardEntry × Option Nat
  | _, 0, m => (m, none)
  | idx, fuel + 1, m =>
    let obj := bowlers.getD idx dummyPlayer
    let m1 := bowlInit m obj.name
    if ballsOf m1 obj.name < 24 then (m1, some idx)
    else scanQuota bowlers ((idx + 1) % bowlers.length) fuel m1

/-- Bowler selection for one delivery: rotation index by over, quota scan,
then the part-timer fallback over the whole eleven, and in the absolute
worst case the first rotation bowler (overflow). -/
def selectBowler (p11 bowlers : List SimPlayer) (ball : Nat)
    (m : List BowlCardEntry) : List BowlCardEntry × SimPlayer :=
  let startIdx := ((ball - 1) / 6) % bowlers.length
  match scanQuota bowlers startIdx bowlers.length m with
  | (m1, some idx) => (m1, bowlers.getD idx dummyPlayer)
  | (m1, none) =>
    let partTimer := p11.find? (fun p =>
      match m1.find? (fun e => e.name == p.name) with
      | none => true
      | some e => e.balls < 24)
    let obj := match partTimer with
      | some p => p
      | none => bowlers.getD 0 dummyPlayer
    (bowlInit m1 obj.name, obj)

/-- The mutable locals of the innings loop.  `ballsVar` is the
innings-level `balls` counter of the source; `k` is the next unconsumed
random-draw index. -/
structure InningsState where
  score : Int
  wickets : Nat
  ballsVar : Nat
  strikerIdx : Nat
  nonStrikerIdx : Nat
  batCard : List BatCardEntry
  bowlCard : List BowlCardEntry
  stats : List PlayerStat
  k : Nat
deriving DecidableEq

/-- The loop-exit condition checked at the top of each iteration
(`wickets`, available batters, chase target with JavaScript truthiness of
the target value). -/
def inningsBreak (target : Option Int) (st : InningsState) : Bool :=
  decide (10 ≤ st.wickets) || decide (st.batCard.length - 1 ≤ st.wickets) ||
    (match target with
     | none => false
     | some t => if t = 0 then false else decide (t < st.score))

/-- The body of one iteration of the 120-ball loop. -/
def inningsStep (rand : Nat → Frac) (battingLineup bowlers bowlP11 : List SimPlayer)
    (target : Option Int) (ball : Nat) (st : InningsState) : InningsState :=
  let sel := selectBowler bowlP11 bowlers ball st.bowlCard
  let m1 := sel.1
  let bowlerObj := sel.2
  let ctx : BallContext :=
    { over := (ball - 1) / 6 + 1
      wickets := st.wickets
      requiredRunRate := match target with
        | none => none
        | some t =>
          if t = 0 then none
          else some (Frac.max 0 ((Frac.ofInt t - Frac.ofInt st.score) /
            ((Frac.max 1 (Frac.ofInt (120 - ((ball : Int) - 1)))) / 6))) }
  let resK := playBall (battingLineup.getD st.strikerIdx dummyPlayer) bowlerObj ctx rand st.k
  let res := resK.1
  let batCard1 := st.batCard.modify (fun c => { c with balls := c.balls + 1 }) st.strikerIdx
  let m2 := bowlUpdate m1 bowlerObj.name (fun e => { e with balls := e.balls + 1 })
  let cbName := (st.batCard.getD st.strikerIdx
    { name := "", runs := 0, balls := 0, fours := 0, sixes := 0, status := BatStatus.dnb }).name
  let st1 : InningsState :=
    if res.isOut then
      let wickets1 := st.wickets + 1
      let batCard2 := batCard1.modify
        (fun c => { c with status := BatStatus.outStatus }) st.strikerIdx
      let m3 := bowlUpdate m2 bowlerObj.name (fun e => { e with wkts := e.wkts + 1 })
      let stats1 := statUpdate st.stats bowlerObj.name
        (fun s => { s with wkts := s.wkts + 1, pts := s.pts + 25 })
      let strikerIdx1 := min (wickets1 + 1) (batCard2.length - 1)
      let batCard3 := batCard2.modify
        (fun c => { c with status := BatStatus.notOut }) strikerIdx1
      { st with
        wickets := wickets1
        strikerIdx := strikerIdx1
        batCard := batCard3
        bowlCard := m3
        stats := stats1
        k := resK.2 }
    else
      let batCard2 := batCard1.modify (fun c =>
        { c with
          runs := c.runs + res.runs
          fours := if res.rtype = BType.four then c.fours + 1 else c.fours
          sixes := if res.rtype = BType.six then c.sixes + 1 else c.sixes }) st.strikerIdx
      let m3 := bowlUpdate m2 bowlerObj.name (fun e => { e with runs := e.runs + res.runs })
      let statPts : Int := res.runs +
        (if res.rtype = BType.four then 1 else 0) +
        (if res.rtype = BType.six then 2 else 0)
      let stats1 := statUpdate st.stats cbName (fun s =>
        { s with
          runs := s.runs + res.runs
          pts := s.pts + statPts
          fours := if res.rtype = BType.four then s.fours + 1 else s.fours
          sixes := if res.rtype = BType.six then s.sixes + 1 else s.sixes })
      let swapped := res.runs % 2 ≠ 0
      { st with
        score := st.score + res.runs
        strikerIdx := if swapped then st.nonStrikerIdx else st.strikerIdx
        nonStrikerIdx := if swapped then st.strikerIdx else st.nonStrikerIdx
        batCard := batCard2
        bowlCard := m3
        stats := stats1
        k := resK.2 }
  if ball % 6 = 0 then
    { st1 with strikerIdx := st1.nonStrikerIdx, nonStrikerIdx := st1.strikerIdx }
  else st1

/-- The 120-ball loop (`for (let ball = 1; ball <= 120; ball++)`), made
structural on a fuel that equals the number of remaining iterations; the
wrapper passes fuel 120 with the ball counter at 1. -/
def inningsLoop (rand : Nat → Frac) (battingLineup bowlers bowlP11 : List SimPlayer)
    (target : Option Int) : Nat → Nat → InningsState → InningsState
  | 0, _, st => st
  | fuel + 1, ball, st =>
    if 120 < ball then st
    else if inningsBreak target st then st
    else inningsLoop rand battingLineup bowlers bowlP11 target fuel (ball + 1)
      (inningsStep rand battingLineup bowlers bowlP11 target ball st)

/-- What `simulateInnings` returns (display-only strings omitted);
`stats` and `k` thread the outer accumulator and the draw stream. -/
structure InningsResult where
  score : Int
  wickets : Nat
  balls : Nat
  bat : List BatCardEntry
  bowl : List BowlCardEntry
  team : String
  stats : List PlayerStat
  k : Nat
deriving DecidableEq

/-- `simulateInnings`: lineup sorted by role priority, bowling options
filtered (with the under-5 and empty fallbacks), then the 120-ball loop.
The first, immediately overwritten assignment to `bowlers` in the source
is dead code and not modelled.  `pitchType` is accepted and, as in the
source, never read. -/
def simulateInnings (rand : Nat → Frac) (stats0 : List PlayerStat) (k0 : Nat)
    (batTeam bowlTeam : TourneyTeam) (target : Option Int)
    (pitchType : String) : InningsResult :=
  let battingLineup := sortByPriority batTeam.playing11
  let bowlers0 := bowlTeam.playing11.filter (fun p =>
    let r := jsToLower p.roleKey
    jsIncludes r "bowl" ∨ jsIncludes r "fast" ∨ jsIncludes r "spin" ∨
      jsIncludes r "ar" ∨ jsIncludes r "all")
  let bowlers1 := if bowlers0.length < 5 then bowlTeam.playing11.drop 5 else bowlers0
  let bowlers := if bowlers1.length = 0 then bowlTeam.playing11 else bowlers1
  let batCard0 := battingLineup.map (fun p =>
    ({ name := p.name, runs := 0, balls := 0, fours := 0, sixes := 0,
       status := BatStatus.dnb } : BatCardEntry))
  let batCard1 := batCard0.modify (fun c => { c with status := BatStatus.notOut }) 0
  let batCard2 :=
    if 1 < batCard1.length then
      batCard1.modify (fun c => { c with status := BatStatus.notOut }) 1
    else batCard1
  let st0 : InningsState :=
    { score := 0, wickets := 0, ballsVar := 0, strikerIdx := 0, nonStrikerIdx := 1,
      batCard := batCard2, bowlCard := [], stats := stats0, k := k0 }
  let stF := inningsLoop rand battingLineup bowlers bowlTeam.playing11 target 120 1 st0
  { score := stF.score, wickets := stF.wickets, balls := stF.ballsVar,
    bat := stF.batCard, bowl := stF.bowlCard, team := batTeam.team.name,
    stats := stF.stats, k := stF.k }

/-! ### Derived notions used by the verified properties -/

/-- Sum of the purchase prices recorded in a team's roster. -/
def rosterSpend (t : Team) : Int := (t.roster.map (fun e => e.price)).sum

/-- The budget each team holds at the moment an auction starts, read off a
room by bid key (0 for an unknown key). -/
def startBudgets (r : Room) : String → Int := fun k =>
  match r.teams.find? (fun t => t.bidKey == k) with
  | some t => t.budget
  | none => 0

/-- The roster/budget accounting invariant: every team's recorded roster
spend equals its start-of-auction budget minus its current budget. -/
def BudgetInv (B : String → Int) (ts : List Team) : Prop :=
  ∀ t ∈ ts, rosterSpend t = B t.bidKey - t.budget

/-- One server event inside a running auction: any handler or scheduled
callback that can fire between a `start_auction` and the end of the room's
life (a further `start_auction` is the reset event and is deliberately not
a step). -/
inductive AuctionStep : Room → Room → Prop
  | placeBid (sid pid key : String) (amt now : Int) (r : Room) :
      AuctionStep r (place_bid sid pid key amt now r).1
  | toggleTimer (sid : String) (r : Room) :
      AuctionStep r (toggle_timer sid r).1
  | tick (now : Int) (r : Room) :
      AuctionStep r (timerTickEvent now r).1
  | finalizeSale (sid : String) (r : Room) :
      AuctionStep r (finalize_sale sid r).1
  | cooldown (now : Int) (r : Room) :
      AuctionStep r (saleCooldown now r).1
  | submitSquad (key : String) (sq : Squad) (r : Room) :
      AuctionStep r (submit_squad key sq r).1
  | endAuction (sid : String) (r : Room) :
      AuctionStep r (end_auction_trigger sid r).1

/-- Total deliveries recorded on a bowling card. -/
def sumBalls (m : List BowlCardEntry) : Nat := (m.map (fun e => e.balls)).sum

/-- The lineup a team submitted (empty when no squad is stored under its
bid key). -/
def submittedXI (squads : List (String × Squad)) (t : Team) : List SimPlayer :=
  match squads.lookup t.bidKey with
  | some sq => sq.playing11
  | none => []

/-! ### Concrete states used by counterexamples and witnesses -/

/-- A lot with base price 10. -/
def lotA : Lot := { name := "P1", roleKey := "Opener", basePrice := 10 }

/-- A claimed team with budget 100 owned by socket `s1` / player `p1`. -/
def teamA : Team :=
  { bidKey := "A", name := "Alpha", budget := 100, isTaken := true,
    ownerPlayerId := some "p1", ownerSocketId := some "s1" }

/-- A room in the middle of bidding on `lotA` with no bid placed yet. -/
def bidRoom : Room :=
  { password := "pw", users := ["adm", "s1"], teams := [teamA],
    auctionQueue := [lotA], auctionIndex := 0, currentBid := 10,
    currentBidder := none, currentPlayer := some 0, timer := 10,
    timerRunning := true, timerPaused := false, timerEndTime := 10000,
    isActive := true, adminSocketId := "adm", adminPlayerId := "padm",
    sellingInProgress := false, squads := [] }

/-- `bidRoom` after an accepted bid of 20 by team `A`. -/
def saleRoom : Room := { bidRoom with currentBid := 20, currentBidder := some "A" }

/-- `bidRoom` with some other team `B` holding the current bid. -/
def bidRoomB : Room := { bidRoom with currentBidder := some "B" }

/-- `saleRoom` after the first sale resolution. -/
def c2r1 : Room := (processSale saleRoom).1

/-- `c2r1` after the 4-second cooldown fires (queue now exhausted). -/
def c2r2 : Room := (saleCooldown 0 c2r1).1

/-- `c2r2` after the admin sends a second `finalize_sale`. -/
def c2r3 : Room := (finalize_sale "adm" c2r2).1

/-- A lobby-phase room (auction not yet started) with one claimed team. -/
def lobbyRoom : Room :=
  { password := "pw", users := ["adm", "s1"], teams := [teamA],
    auctionQueue := [], auctionIndex := 0, currentBid := 0,
    currentBidder := none, currentPlayer := none, timer := 10,
    timerRunning := false, timerPaused := true, timerEndTime := 0,
    isActive := false, adminSocketId := "adm", adminPlayerId := "padm",
    sellingInProgress := false, squads := [] }

/-- First `start_auction` on the lobby room. -/
def c3s1 : Room := (start_auction "adm" [lotA] 0 lobbyRoom).1

/-- Accepted bid of 20 during the first auction run. -/
def c3s2 : Room := (place_bid "s1" "p1" "A" 20 0 c3s1).1

/-- The sale resolved by the admin. -/
def c3s3 : Room := (finalize_sale "adm" c3s2).1

/-- A second `start_auction`: rosters reset, budgets kept. -/
def c3s4 : Room := (start_auction "adm" [lotA] 0 c3s3).1

/-- A squad submission that names no players at all. -/
def badSquad : Squad := { playing11 := [] }

/-- Registry with one freshly created room `X`. -/
def c5reg0 : Registry := (create_room "adm" "padm" "X" "pw" []).1

/-- The same registry after its only participant disconnects. -/
def c5reg1 : Registry := disconnect "adm" "X" c5reg0

/-- Draw stream that yields a plain single every delivery: luck draw 0,
then 0.99 against the wicket, dot and boundary thresholds, then 0 for the
1-2-3 running draw. -/
def randCE : Nat → Frac := fun k =>
  if k % 5 = 1 ∨ k % 5 = 2 ∨ k % 5 = 3 then ⟨99, 100⟩ else ⟨0, 1⟩

/-- A full batting side of eleven openers. -/
def batT : TourneyTeam :=
  { team := { bidKey := "B", name := "Bat", budget := 0 },
    playing11 := (List.range 11).map (fun i =>
      { name := "bat" ++ toString i, roleKey := "Opener" }),
    captain := none }

/-- A bowling side whose eleven is a single bowler. -/
def bowlT : TourneyTeam :=
  { team := { bidKey := "C", name := "Bowl", budget := 0 },
    playing11 := [{ name := "B1", roleKey := "Bowler" }],
    captain := none }

/-- A chase of target 25 against the one-bowler side: 26 deliveries, all
bowled by the same bowler. -/
def ceInnings : InningsResult := simulateInnings randCE [] 0 batT bowlT (some 25) "flat"

/-- A batting side with a single player (the innings ends immediately). -/
def batW : TourneyTeam :=
  { team := { bidKey := "D", name := "Solo", budget := 0 },
    playing11 := [{ name := "solo", roleKey := "Opener" }],
    captain := none }

/-- A bowling side with five distinctly named bowlers. -/
def bowlW : TourneyTeam :=
  { team := { bidKey := "E", name := "Five", budget := 0 },
    playing11 := (List.range 5).map (fun i =>
      { name := "bw" ++ toString i, roleKey := "Bowler" }),
    captain := none }

/-- An innings against the five-bowler side. -/
def witInnings : InningsResult := simulateInnings randCE [] 0 batW bowlW none "flat"

/-- A room ready for the squad phase: one claimed team with a roster of
five purchased players and a one-player submitted squad. -/
def squadRoom : Room :=
  { bidRoom with
    teams := [{ teamA with
      roster := (List.range 5).map (fun i =>
        { name := "r" ++ toString i, roleKey := "batter", price := 1 }) }]
    squads := [("A", { playing11 := [{ name := "x", roleKey := "wk" }] })] }

end IPL


namespace IPL

/-! ### Helper lemmas -/

theorem processSale_timer (r : Room) : (processSale r).1.timer = r.timer := by
  unfold processSale
  cases r.currentPlayer with
  | none => rfl
  | some idx =>
    dsimp only
    split
    · rfl
    · split <;> (simp only [stopTimer]; split <;> rfl)

theorem lookup_replace (l : List (String × Squad)) (k : String) (v : Squad)
    (h : (l.lookup k).isSome = true) :
    ((l.map (fun p => cond (p.1 == k) (k, v) p)).lookup k) = some v := by
  induction l with
  | nil => simp [List.lookup] at h
  | cons a t ih =>
    obtain ⟨a1, a2⟩ := a
    by_cases hk : a1 = k
    · subst hk
      simp [List.lookup]
    · have h2 : (a1 == k) = false := by simpa using hk
      have h3 : (k == a1) = false := by simpa using fun e => hk e.symm
      simp only [List.lookup, h3] at h
      simp only [List.map_cons, h2, cond_false]
      simp only [List.lookup, h3]
      exact ih h

theorem lookup_append_self (l : List (String × Squad)) (k : String) (v : Squad)
    (h : l.lookup k = none) : ((l ++ [(k, v)]).lookup k) = some v := by
  induction l with
  | nil => simp [List.lookup]
  | cons a t ih =>
    obtain ⟨a1, a2⟩ := a
    by_cases hk : k = a1
    · simp [List.lookup, hk] at h
    · have h3 : (k == a1) = false := by simpa using hk
      simp only [List.lookup, h3] at h
      simp only [List.cons_append, List.lookup, h3]
      exact ih h

theorem jsObjSet_lookup (l : List (String × Squad)) (k : String) (v : Squad) :
    (jsObjSet l k v).lookup k = some v := by
  unfold jsObjSet
  by_cases h : (l.lookup k).isSome
  · simpa [h] using lookup_replace l k v h
  · have hn : l.lookup k = none := by
      cases hl : l.lookup k
      · rfl
      · simp [hl] at h
    simpa [h] using lookup_append_self l k v hn

theorem jsObjSet_length (l : List (String × Squad)) (k : String) (v : Squad) :
    (jsObjSet l k v).length =
      if (l.lookup k).isSome then l.length else l.length + 1 := by
  unfold jsObjSet
  split <;> simp

/-! ### C8 -/

/-- C8: pausing and unpausing the clock with no tick in between restores
the room state exactly (so the remaining time, always recomputed as
`deadline − now` on an unpaused tick, is unchanged); while paused a tick
advances the deadline in lockstep and keeps the displayed time. -/
theorem pause_resume_preserves_clock (sid : String) (now : Int) (r : Room)
    (hAdmin : isAdmin sid r = true) :
    (toggle_timer sid (toggle_timer sid r).1).1 = r ∧
    (r.timerRunning = true → r.timerPaused = false →
      (timerTickEvent now r).1.timer = jsCeilDiv (r.timerEndTime - now) 1000) ∧
    (r.timerRunning = true → r.timerPaused = true →
      (timerTickEvent now r).1.timerEndTime = r.timerEndTime + 1000 ∧
      (timerTickEvent now r).1.timer = r.timer) := by
  refine ⟨?_, ?_, ?_⟩
  · have hA2 : isAdmin sid ({ r with timerPaused := !r.timerPaused } : Room) = true := hAdmin
    simp only [toggle_timer, hAdmin, hA2, if_true]
    simp [Bool.not_not]
  · intro h1 h2
    have hc1 : ¬ (¬ r.timerRunning = true) := by simp [h1]
    have hc2 : ¬ (r.timerPaused = true) := by simp [h2]
    simp only [timerTickEvent, if_neg hc1, if_neg hc2]
    split
    · rw [processSale_timer]
    · rfl
  · intro h1 h2
    simp [timerTickEvent, h1, h2]

/-- Witness for C8 at a concrete running room. -/
theorem pause_resume_preserves_clock_witness :
    isAdmin "adm" bidRoom = true ∧
    ((toggle_timer "adm" (toggle_timer "adm" bidRoom).1).1 = bidRoom ∧
     (bidRoom.timerRunning = true → bidRoom.timerPaused = false →
       (timerTickEvent 500 bidRoom).1.timer = jsCeilDiv (bidRoom.timerEndTime - 500) 1000) ∧
     (bidRoom.timerRunning = true → bidRoom.timerPaused = true →
       (timerTickEvent 500 bidRoom).1.timerEndTime = bidRoom.timerEndTime + 1000 ∧
       (timerTickEvent 500 bidRoom).1.timer = bidRoom.timer)) :=
  ⟨by decide, pause_resume_preserves_clock "adm" 500 bidRoom (by decide)⟩

/-! ### C9 -/

/-- C9 (amended): the server stores any squad submission unconditionally —
no size, roster-membership or composition validation — overwriting any
previous submission under the same team key, and counts it toward the
broadcast submission total. -/
theorem submit_squad_stores_unvalidated (key : String) (sq : Squad) (r : Room) :
    ((submit_squad key sq r).1.squads.lookup key = some sq) ∧
    ((submit_squad key sq r).1.squads.length =
      if (r.squads.lookup key).isSome then r.squads.length else r.squads.length + 1) ∧
    (Ev.squadSubmissionUpdate ((submit_squad key sq r).1.squads.length)
      ((r.teams.filter (fun t => t.isTaken)).length) ∈ (submit_squad key sq r).2) := by
  refine ⟨jsObjSet_lookup r.squads key sq, jsObjSet_length r.squads key sq, ?_⟩
  exact List.mem_cons_self _ _

/-- C9 counterexample: a submission naming zero starters (not eleven, none
validated against the roster) is recorded, counted, and even triggers the
simulation. -/
theorem empty_squad_accepted :
    (submit_squad "A" badSquad bidRoom).1.squads = [("A", badSquad)] ∧
    (submit_squad "A" badSquad bidRoom).2 =
      [Ev.squadSubmissionUpdate 1 1, Ev.simulationTriggered] ∧
    badSquad.playing11.length = 0 ∧ badSquad.playing11.length ≠ 11 := by decide

/-! ### C5 -/

/-- C5 (amended): a disconnect only removes the socket from the room's
user list; the room itself is never removed from the registry, however
empty and inactive, and while the process lives a later `create_room`
with the same code always fails. -/
theorem rooms_never_removed (sid rid : String) (reg : Registry) :
    (∀ c, (((disconnect sid rid reg).lookup c).isSome) = ((reg.lookup c).isSome)) ∧
    (∀ sid2 pid2 pw, ((reg.lookup rid).isSome = true) →
      create_room sid2 pid2 rid pw reg = (reg, [Ev.errorMessage "Room Exists!"])) := by
  constructor
  · intro c
    unfold disconnect
    induction reg with
    | nil => rfl
    | cons a t ih =>
      obtain ⟨a1, a2⟩ := a
      simp only [List.map_cons]
      by_cases h1 : a1 = rid
      · subst h1
        simp only [beq_self_eq_true, cond_true]
        by_cases h2 : c = a1
        · subst h2
          simp [List.lookup]
        · have h3 : (c == a1) = false := by simpa using h2
          simp [List.lookup, h3, ih]
      · have h1a : (a1 == rid) = false := by simpa using h1
        simp only [h1a, cond_false]
        by_cases h2 : c = a1
        · subst h2
          simp [List.lookup]
        · have h3 : (c == a1) = false := by simpa using h2
          simp [List.lookup, h3, ih]
  · intro sid2 pid2 pw h
    unfold create_room
    simp [h]

/-- Witness for C5 at the concrete one-room registry. -/
theorem rooms_never_removed_witness :
    (((disconnect "adm" "X" c5reg0).lookup "X").isSome = ((c5reg0.lookup "X").isSome)) ∧
    ((c5reg1.lookup "X").isSome = true) ∧
    (create_room "s9" "p9" "X" "pw" c5reg1 = (c5reg1, [Ev.errorMessage "Room Exists!"])) :=
  ⟨(rooms_never_removed "adm" "X" c5reg0).1 "X", by decide,
    (rooms_never_removed "s0" "X" c5reg1).2 "s9" "p9" "pw" (by decide)⟩

/-- C5 counterexample: after its only participant disconnects the room has
no users and an inactive auction, yet it stays registered and its code
cannot be reused. -/
theorem empty_room_persists :
    ((c5reg1.lookup "X").map (fun r => (r.users, r.isActive)) = some ([], false)) ∧
    (create_room "s9" "p9" "X" "pw" c5reg1).2 = [Ev.errorMessage "Room Exists!"] ∧
    (create_room "s9" "p9" "X" "pw" c5reg1).1 = c5reg1 := by decide

/-! ### C2 -/

/-- C2: the idempotency guard holds only while the selling flag is up.
After the last lot is sold, the cooldown clears the flag but leaves
`currentPlayer`/`currentBidder` pointing at the resolved lot, so a second
admin `finalize_sale` resolves the same lot again: the buyer is charged a
second time and a duplicate roster entry is appended. -/
theorem processSale_double_resolution :
    (c2r1.auctionQueue.map (fun l => l.status) = [some LotStatus.SOLD]) ∧
    (c2r1.teams.map (fun t => (t.budget, t.roster.length)) = [(80, 1)]) ∧
    ((processSale c2r1).1 = c2r1 ∧ (processSale c2r1).2 = []) ∧
    (c2r2.sellingInProgress = false ∧ c2r2.currentPlayer = some 0 ∧
      c2r2.currentBidder = some "A") ∧
    (c2r3.teams.map (fun t => (t.budget, t.roster.length)) = [(60, 2)]) ∧
    c2r3.auctionQueue.length = 1 := by decide

end IPL

namespace IPL

theorem startTimer_fields (now : Int) (r : Room) :
    (startTimer now r).1.currentBid = r.currentBid ∧
    (startTimer now r).1.currentBidder = r.currentBidder ∧
    (startTimer now r).1.teams = r.teams := by
  unfold startTimer
  split <;> exact ⟨rfl, rfl, rfl⟩

theorem place_bid_accept_iff (sid pid key : String) (amt now : Int)
    (r : Room) (ti : Nat) (hf : findTeamIdx r.teams key = some ti) :
    (Ev.bidUpdate amt key ∈ (place_bid sid pid key amt now r).2) ↔
      (r.isActive = true ∧ r.timerPaused = false ∧ r.sellingInProgress = false ∧
       r.currentPlayer.isNone = false ∧
       ((r.teams.getD ti dummyTeam).ownerSocketId = some sid ∨
        (r.teams.getD ti dummyTeam).ownerPlayerId = some pid) ∧
       ¬ r.currentBidder = some key ∧
       amt ≤ (r.teams.getD ti dummyTeam).budget ∧
       ¬ (amt ≤ r.currentBid ∧ r.currentBidder.isSome = true)) := by
  simp only [place_bid, hf]
  constructor
  · intro hmem
    split_ifs at hmem <;>
      simp_all [not_lt, apply_ite Team.budget, Option.ne_none_iff_isSome]
  · rintro ⟨hA, hP, hS, hCP, hOwn, hSelf, hBud, hAmt⟩
    have hC0 : ¬ (¬ r.isActive = true ∨ r.timerPaused = true ∨
        r.sellingInProgress = true ∨ r.currentPlayer.isNone = true) := by
      simp [hA, hP, hS, hCP]
    rw [if_neg hC0]
    have hO : ¬ ((r.teams.getD ti dummyTeam).ownerSocketId ≠ some sid ∧
        (r.teams.getD ti dummyTeam).ownerPlayerId ≠ some pid) := by tauto
    rw [if_neg hO]
    rw [if_neg hSelf]
    have hb : ¬ ((if (r.teams.getD ti dummyTeam).ownerSocketId = some sid
        then r.teams.getD ti dummyTeam
        else { r.teams.getD ti dummyTeam with ownerSocketId := some sid }).budget < amt) := by
      split <;> simpa [not_lt] using hBud
    rw [if_neg hb]
    rw [if_neg hAmt]
    exact List.mem_cons_self _ _

theorem place_bid_cases (sid pid key : String) (amt now : Int) (r : Room) :
    ((place_bid sid pid key amt now r).1.currentBid = amt ∧
     (place_bid sid pid key amt now r).1.currentBidder = some key ∧
     Ev.bidUpdate amt key ∈ (place_bid sid pid key amt now r).2) ∨
    ((place_bid sid pid key amt now r).1.currentBid = r.currentBid ∧
     (place_bid sid pid key amt now r).1.currentBidder = r.currentBidder ∧
     ¬ Ev.bidUpdate amt key ∈ (place_bid sid pid key amt now r).2) := by
  rcases hf : findTeamIdx r.teams key with _ | ti
  · simp only [place_bid, hf]
    split_ifs <;> right <;> exact ⟨rfl, rfl, by simp⟩
  · simp only [place_bid, hf]
    split_ifs <;>
      first
      | (left
         refine ⟨?_, ?_, ?_⟩
         · exact ((startTimer_fields _ _).1).trans rfl
         · exact ((startTimer_fields _ _).2.1).trans rfl
         · exact List.mem_cons_self _ _)
      | (right; exact ⟨rfl, rfl, by simp⟩)

end IPL

namespace IPL

/-! ### C1 -/

/-- C1 (amended): a place-bid request from a socket is accepted — the bid
recorded and broadcast — exactly when the auction is active, the clock
unpaused, no sale in progress, a current lot exists, the named team exists
and the requester controls it (by socket or by matching player identity),
the team is not already the current high bidder, its budget covers the
amount, and the amount is not a too-low bid against an existing bidder
(when no bid has been placed yet, any amount within budget is accepted —
the lot's base price is not enforced). -/
theorem place_bid_acceptance_conditions (sid pid key : String) (amt now : Int)
    (r : Room) (ti : Nat) (hf : findTeamIdx r.teams key = some ti) :
    (Ev.bidUpdate amt key ∈ (place_bid sid pid key amt now r).2) ↔
      (r.isActive = true ∧ r.timerPaused = false ∧ r.sellingInProgress = false ∧
       r.currentPlayer.isNone = false ∧
       ((r.teams.getD ti dummyTeam).ownerSocketId = some sid ∨
        (r.teams.getD ti dummyTeam).ownerPlayerId = some pid) ∧
       ¬ r.currentBidder = some key ∧
       amt ≤ (r.teams.getD ti dummyTeam).budget ∧
       ¬ (amt ≤ r.currentBid ∧ r.currentBidder.isSome = true)) :=
  place_bid_accept_iff sid pid key amt now r ti hf

/-- Witness for C1: a bid of 15 against a standing bid of 10 held by
another team is accepted. -/
theorem place_bid_acceptance_conditions_witness :
    findTeamIdx bidRoomB.teams "A" = some 0 ∧
    ((Ev.bidUpdate 15 "A" ∈ (place_bid "s1" "p1" "A" 15 0 bidRoomB).2) ↔
      (bidRoomB.isActive = true ∧ bidRoomB.timerPaused = false ∧
       bidRoomB.sellingInProgress = false ∧
       bidRoomB.currentPlayer.isNone = false ∧
       ((bidRoomB.teams.getD 0 dummyTeam).ownerSocketId = some "s1" ∨
        (bidRoomB.teams.getD 0 dummyTeam).ownerPlayerId = some "p1") ∧
       ¬ bidRoomB.currentBidder = some "A" ∧
       (15 : Int) ≤ (bidRoomB.teams.getD 0 dummyTeam).budget ∧
       ¬ ((15 : Int) ≤ bidRoomB.currentBid ∧ bidRoomB.currentBidder.isSome = true))) :=
  ⟨by decide, place_bid_acceptance_conditions "s1" "p1" "A" 15 0 bidRoomB 0 (by decide)⟩

/-- C1 counterexample: with no bid yet placed on a lot of base price 10, a
bid of 5 — which neither strictly exceeds the current bid nor equals the
base price — is accepted and recorded, contradicting the claimed
only-if condition. -/
theorem place_bid_below_base_accepted :
    Ev.bidUpdate 5 "A" ∈ (place_bid "s1" "p1" "A" 5 0 bidRoom).2 ∧
    (place_bid "s1" "p1" "A" 5 0 bidRoom).1.currentBid = 5 ∧
    (place_bid "s1" "p1" "A" 5 0 bidRoom).1.currentBidder = some "A" ∧
    bidRoom.currentBidder = none ∧
    bidRoom.currentBid = 10 ∧
    (bidRoom.auctionQueue.getD 0 dummyLot).basePrice = 10 ∧
    ¬ (bidRoom.currentBid < 5) ∧ (5 : Int) ≠ 10 := by decide

/-! ### C4 -/

/-- C4 (amended): every accepted bid is within the bidding team's budget
and is recorded as the new current bid; whenever a bid already stands
(a current bidder exists) the accepted amount strictly exceeds the
previous recorded bid.  Only the very first acceptance on a lot may fail
to increase the recorded bid (the base price is not enforced for it). -/
theorem accepted_bid_budget_and_increase (sid pid key : String) (amt now : Int)
    (r : Room) (ti : Nat) (hf : findTeamIdx r.teams key = some ti)
    (hacc : Ev.bidUpdate amt key ∈ (place_bid sid pid key amt now r).2) :
    amt ≤ (r.teams.getD ti dummyTeam).budget ∧
    (place_bid sid pid key amt now r).1.currentBid = amt ∧
    (place_bid sid pid key amt now r).1.currentBidder = some key ∧
    (r.currentBidder.isSome = true → r.currentBid < amt) := by
  have h := (place_bid_accept_iff sid pid key amt now r ti hf).mp hacc
  rcases place_bid_cases sid pid key amt now r with hst | hst
  · refine ⟨h.2.2.2.2.2.2.1, hst.1, hst.2.1, ?_⟩
    intro hbs
    rcases not_and_or.mp h.2.2.2.2.2.2.2 with hna | hnb
    · exact not_le.mp hna
    · exact absurd hbs hnb
  · exact absurd hacc hst.2.2

/-- Witness for C4: the accepted bid of 15 over the standing bid of 10. -/
theorem accepted_bid_budget_and_increase_witness :
    findTeamIdx bidRoomB.teams "A" = some 0 ∧
    (Ev.bidUpdate 15 "A" ∈ (place_bid "s1" "p1" "A" 15 0 bidRoomB).2) ∧
    ((15 : Int) ≤ (bidRoomB.teams.getD 0 dummyTeam).budget ∧
     (place_bid "s1" "p1" "A" 15 0 bidRoomB).1.currentBid = 15 ∧
     (place_bid "s1" "p1" "A" 15 0 bidRoomB).1.currentBidder = some "A" ∧
     (bidRoomB.currentBidder.isSome = true → bidRoomB.currentBid < 15)) :=
  ⟨by decide, by decide,
    accepted_bid_budget_and_increase "s1" "p1" "A" 15 0 bidRoomB 0 (by decide) (by decide)⟩

/-- C4 counterexample: the first accepted bid on a lot can be lower than
the recorded current bid (the base price), so the recorded current bid is
not strictly increasing across every acceptance. -/
theorem first_bid_decreases_current_bid :
    Ev.bidUpdate 5 "A" ∈ (place_bid "s1" "p1" "A" 5 0 bidRoom).2 ∧
    bidRoom.currentBid = 10 ∧
    (place_bid "s1" "p1" "A" 5 0 bidRoom).1.currentBid = 5 ∧
    ¬ (bidRoom.currentBid < (place_bid "s1" "p1" "A" 5 0 bidRoom).1.currentBid) := by
  decide

end IPL

namespace IPL

/-! ### C3 machinery -/

theorem stopTimer_teams (r : Room) : (stopTimer r).teams = r.teams := by
  unfold stopTimer
  split <;> rfl

theorem stopTimer_currentBidder (r : Room) :
    (stopTimer r).currentBidder = r.currentBidder := by
  unfold stopTimer
  split <;> rfl

theorem stopTimer_currentBid (r : Room) :
    (stopTimer r).currentBid = r.currentBid := by
  unfold stopTimer
  split <;> rfl

theorem startNextLotGo_teams (now : Int) :
    ∀ fuel (r : Room), (startNextLotGo now fuel r).1.teams = r.teams := by
  intro fuel
  induction fuel with
  | zero => intro r; rfl
  | succ n ih =>
    intro r
    simp only [startNextLotGo]
    split
    · rfl
    · split
      · rw [ih]
      · exact (startTimer_fields _ _).2.2

theorem startNextLot_teams (now : Int) (r : Room) :
    (startNextLot now r).1.teams = r.teams :=
  startNextLotGo_teams now _ r

theorem findTeamIdx_getD_mem (ts : List Team) (key : String) (ti : Nat)
    (hf : findTeamIdx ts key = some ti) : ts.getD ti dummyTeam ∈ ts := by
  unfold findTeamIdx at hf
  rcases List.findIdx?_eq_some_iff_getElem.mp hf with ⟨hlt, _, _⟩
  rw [List.getD_eq_getElem?_getD, List.getElem?_eq_getElem hlt, Option.getD_some]
  exact List.getElem_mem hlt

theorem BudgetInv_set (B : String → Int) (ts : List Team) (ti : Nat) (t' : Team)
    (h : BudgetInv B ts) (ht' : rosterSpend t' = B t'.bidKey - t'.budget) :
    BudgetInv B (ts.set ti t') := by
  intro t htm
  rcases List.mem_or_eq_of_mem_set htm with hm | he
  · exact h t hm
  · rw [he]
    exact ht'

theorem BudgetInv_set_refresh (B : String → Int) (ts : List Team) (ti : Nat)
    (key sid : String) (h : BudgetInv B ts) (hf : findTeamIdx ts key = some ti) :
    BudgetInv B (ts.set ti
      (if (ts.getD ti dummyTeam).ownerSocketId = some sid then ts.getD ti dummyTeam
       else { ts.getD ti dummyTeam with ownerSocketId := some sid })) := by
  apply BudgetInv_set _ _ _ _ h
  have he := h _ (findTeamIdx_getD_mem ts key ti hf)
  split
  · exact he
  · simpa [rosterSpend] using he

theorem place_bid_BudgetInv (sid pid key : String) (amt now : Int) (r : Room)
    (B : String → Int) (h : BudgetInv B r.teams) :
    BudgetInv B (place_bid sid pid key amt now r).1.teams := by
  rcases hf : findTeamIdx r.teams key with _ | ti
  · simp only [place_bid, hf]
    split_ifs <;> exact h
  · simp only [place_bid, hf]
    have he := h _ (findTeamIdx_getD_mem r.teams key ti hf)
    have he2 : rosterSpend ({ r.teams.getD ti dummyTeam with ownerSocketId := some sid }) =
        B ({ r.teams.getD ti dummyTeam with ownerSocketId := some sid }).bidKey -
          ({ r.teams.getD ti dummyTeam with ownerSocketId := some sid }).budget := by
      simpa [rosterSpend] using he
    split_ifs <;>
      first
      | exact h
      | exact BudgetInv_set B r.teams ti _ h he
      | exact BudgetInv_set B r.teams ti _ h he2
      | (dsimp only
         rw [(startTimer_fields _ _).2.2]
         first
         | exact BudgetInv_set B r.teams ti _ h he
         | exact BudgetInv_set B r.teams ti _ h he2)

theorem processSale_BudgetInv (r : Room) (B : String → Int)
    (h : BudgetInv B r.teams) : BudgetInv B (processSale r).1.teams := by
  unfold processSale
  cases hcp : r.currentPlayer with
  | none => exact h
  | some idx =>
    dsimp only
    split
    · exact h
    · split
      · rename_i ti heq
        rw [stopTimer_currentBidder] at heq
        dsimp only at heq
        rcases hb : r.currentBidder with _ | key
        · rw [hb] at heq
          simp at heq
        · rw [hb] at heq
          rw [stopTimer_teams] at heq
          dsimp only at heq
          have he := h _ (findTeamIdx_getD_mem r.teams key ti heq)
          dsimp only
          rw [stopTimer_teams, stopTimer_currentBid]
          dsimp only
          apply BudgetInv_set _ _ _ _ h
          simp only [rosterSpend, List.map_append, List.sum_append, List.map_cons,
            List.map_nil, List.sum_cons, List.sum_nil] at he ⊢
          omega
      · dsimp only
        rw [stopTimer_teams]
        exact h

theorem timerTickEvent_BudgetInv (now : Int) (r : Room) (B : String → Int)
    (h : BudgetInv B r.teams) : BudgetInv B (timerTickEvent now r).1.teams := by
  unfold timerTickEvent
  dsimp only
  split_ifs <;>
    first
    | exact h
    | exact processSale_BudgetInv _ B h

theorem AuctionStep_BudgetInv (B : String → Int) {r r' : Room}
    (hstep : AuctionStep r r') (h : BudgetInv B r.teams) : BudgetInv B r'.teams := by
  cases hstep with
  | placeBid sid pid key amt now r => exact place_bid_BudgetInv sid pid key amt now r B h
  | toggleTimer sid r =>
    unfold toggle_timer
    split_ifs <;> exact h
  | tick now r => exact timerTickEvent_BudgetInv now r B h
  | finalizeSale sid r =>
    unfold finalize_sale
    split_ifs
    · exact processSale_BudgetInv r B h
    · exact h
  | cooldown now r =>
    unfold saleCooldown
    rw [startNextLot_teams]
    exact h
  | submitSquad key sq r => exact h
  | endAuction sid r =>
    unfold end_auction_trigger
    split_ifs
    · show BudgetInv B (stopTimer r).teams
      rw [stopTimer_teams]
      exact h
    · exact h

theorem steps_BudgetInv (B : String → Int) {r r' : Room}
    (hsteps : Relation.ReflTransGen AuctionStep r r') (h : BudgetInv B r.teams) :
    BudgetInv B r'.teams := by
  induction hsteps with
  | refl => exact h
  | tail _ hstep ih => exact AuctionStep_BudgetInv B hstep ih

theorem find?_key_of_mem_nodup (ts : List Team) (t : Team) (hmem : t ∈ ts)
    (hnd : (ts.map (fun x => x.bidKey)).Nodup) :
    ts.find? (fun x => x.bidKey == t.bidKey) = some t := by
  induction ts with
  | nil => cases hmem
  | cons a l ih =>
    rcases List.mem_cons.mp hmem with he | hm
    · rw [he]
      simp [List.find?]
    · have hne : (a.bidKey == t.bidKey) = false := by
        simp only [List.map_cons, List.nodup_cons] at hnd
        have : t.bidKey ∈ l.map (fun x => x.bidKey) := List.mem_map_of_mem _ hm
        simp only [beq_eq_false_iff_ne, ne_eq]
        intro hc
        exact hnd.1 (hc ▸ this)
      rw [List.find?]
      rw [hne]
      exact ih hm (by simp only [List.map_cons, List.nodup_cons] at hnd; exact hnd.2)

theorem start_auction_establishes (sid : String) (queue : List Lot) (now : Int)
    (r : Room) (hadmin : isAdmin sid r = true)
    (hnodup : ((r.teams.filter (fun t => t.isTaken)).map (fun t => t.bidKey)).Nodup) :
    BudgetInv (startBudgets (start_auction sid queue now r).1)
      (start_auction sid queue now r).1.teams := by
  intro t htm
  have hteams : (start_auction sid queue now r).1.teams =
      (r.teams.filter (fun t => t.isTaken)).map (fun t =>
        { t with roster := [], totalSpent := 0, totalPlayers := 0 }) := by
    unfold start_auction
    rw [if_pos hadmin]
    exact startNextLot_teams now _
  rw [hteams] at htm
  have hnd2 : (((r.teams.filter (fun t => t.isTaken)).map (fun t =>
      ({ t with roster := [], totalSpent := 0, totalPlayers := 0 } : Team))).map
        (fun x => x.bidKey)).Nodup := by
    rw [List.map_map]
    exact hnodup
  have hfind := find?_key_of_mem_nodup _ t htm hnd2
  have hspend : rosterSpend t = 0 := by
    rcases List.mem_map.mp htm with ⟨t0, _, he⟩
    rw [← he]
    rfl
  unfold startBudgets
  rw [hteams, hfind, hspend]
  dsimp only
  omega

/-! ### C3 claim -/

/-- C3 (amended): from the moment an admin `start_auction` snapshots the
claimed teams (with distinct bid keys), through any sequence of in-auction
events — bids, timer ticks and toggles, sale resolutions, cooldowns, squad
submissions, auction end — every team's recorded roster spend equals its
budget at that auction start minus its current budget.  The equality is
relative to the *latest* `start_auction`: a repeated `start_auction`
resets rosters but not budgets, so the invariant does not survive a
restart relative to the original starting budget. -/
theorem roster_spend_budget_invariant (sid : String) (queue : List Lot)
    (now : Int) (r rfin : Room) (hadmin : isAdmin sid r = true)
    (hnodup : ((r.teams.filter (fun t => t.isTaken)).map (fun t => t.bidKey)).Nodup)
    (hsteps : Relation.ReflTransGen AuctionStep
      (start_auction sid queue now r).1 rfin) :
    BudgetInv (startBudgets (start_auction sid queue now r).1) rfin.teams :=
  steps_BudgetInv _ hsteps
    (start_auction_establishes sid queue now r hadmin hnodup)

/-- Witness for C3: a full concrete run — start, accepted bid of 20,
admin-resolved sale — keeps the invariant. -/
theorem roster_spend_budget_invariant_witness :
    isAdmin "adm" lobbyRoom = true ∧
    (((lobbyRoom.teams.filter (fun t => t.isTaken)).map (fun t => t.bidKey)).Nodup) ∧
    BudgetInv (startBudgets c3s1) c3s3.teams :=
  ⟨by decide, by decide,
    roster_spend_budget_invariant "adm" [lotA] 0 lobbyRoom c3s3 (by decide) (by decide)
      (Relation.ReflTransGen.tail
        (Relation.ReflTransGen.single
          (AuctionStep.placeBid "s1" "p1" "A" 20 0 c3s1))
        (AuctionStep.finalizeSale "adm" c3s2))⟩

/-- C3 counterexample: a repeated `start_auction` resets rosters but not
budgets, so afterwards the roster spend (0) no longer equals the original
starting budget (100) minus the current budget (80). -/
theorem restart_breaks_budget_invariant :
    (c3s4.teams.map (fun t => rosterSpend t)) = [0] ∧
    (c3s4.teams.map (fun t => t.budget)) = [80] ∧
    (c3s1.teams.map (fun t => t.budget)) = [100] ∧
    (0 : Int) ≠ 100 - 80 := by decide

end IPL

namespace IPL

/-! ### C6 -/

theorem inningsStep_ballsVar (rand : Nat → Frac)
    (battingLineup bowlers bowlP11 : List SimPlayer) (target : Option Int)
    (ball : Nat) (st : InningsState) :
    (inningsStep rand battingLineup bowlers bowlP11 target ball st).ballsVar =
      st.ballsVar := by
  unfold inningsStep
  dsimp only
  split_ifs <;> rfl

theorem inningsLoop_ballsVar (rand : Nat → Frac)
    (battingLineup bowlers bowlP11 : List SimPlayer) (target : Option Int) :
    ∀ fuel ball st,
      (inningsLoop rand battingLineup bowlers bowlP11 target fuel ball st).ballsVar =
        st.ballsVar := by
  intro fuel
  induction fuel with
  | zero => intro ball st; rfl
  | succ n ih =>
    intro ball st
    simp only [inningsLoop]
    split_ifs
    · rfl
    · rfl
    · rw [ih, inningsStep_ballsVar]

/-- C6: the innings-level delivery counter `balls` is never incremented, so
every simulated innings reports 0 recorded deliveries.  Consequently the
league table's overs bookkeeping (`oversFaced`/`oversBowled` accumulating
`i2.balls / 6` for the chasing side and a flat 20 for the side batting
first) cannot equal the actual overs of any innings, and the net-rate
tiebreaker is not the claimed runs-per-actual-over differential. -/
theorem innings_balls_counter_zero (rand : Nat → Frac)
    (stats0 : List PlayerStat) (k0 : Nat) (batTeam bowlTeam : TourneyTeam)
    (target : Option Int) (pitchType : String) :
    (simulateInnings rand stats0 k0 batTeam bowlTeam target pitchType).balls = 0 := by
  unfold simulateInnings
  dsimp only
  rw [inningsLoop_ballsVar]

end IPL

namespace IPL

/-! ### C7 machinery: the bowling-card map -/

theorem ballsOf_bowlInit (m : List BowlCardEntry) (n x : String) :
    ballsOf (bowlInit m n) x = ballsOf m x := by
  unfold bowlInit
  split
  · rfl
  · rename_i hany
    unfold ballsOf
    rw [List.find?_append]
    cases hfx : m.find? (fun e => e.name == x) with
    | some e => simp
    | none =>
      by_cases hx : n = x
      · subst hx
        simp [List.find?]
      · have : (n == x) = false := by simpa using hx
        simp [List.find?, this]

theorem sumBalls_bowlInit (m : List BowlCardEntry) (n : String) :
    sumBalls (bowlInit m n) = sumBalls m := by
  unfold bowlInit
  split
  · rfl
  · simp [sumBalls]

theorem mem_bowlInit (m : List BowlCardEntry) (n : String) (e : BowlCardEntry)
    (he : e ∈ bowlInit m n) : e ∈ m ∨ e.balls = 0 := by
  unfold bowlInit at he
  split at he
  · exact Or.inl he
  · rcases List.mem_append.mp he with hm | hs
    · exact Or.inl hm
    · right
      rw [List.mem_singleton.mp hs]

theorem names_nodup_bowlInit (m : List BowlCardEntry) (n : String)
    (h : (m.map (fun e => e.name)).Nodup) :
    ((bowlInit m n).map (fun e => e.name)).Nodup := by
  unfold bowlInit
  split
  · exact h
  · rename_i hany
    rw [List.map_append]
    simp only [List.map_cons, List.map_nil]
    rw [List.nodup_append]
    refine ⟨h, List.nodup_singleton n, ?_⟩
    intro a ha hb
    rw [List.mem_singleton.mp hb] at ha
    rcases List.mem_map.mp ha with ⟨e, hem, hen⟩
    have : m.any (fun e => e.name == n) = true := by
      rw [List.any_eq_true]
      exact ⟨e, hem, by simp [hen]⟩
    simp [this] at hany

theorem find?_bowlInit_self (m : List BowlCardEntry) (n : String) :
    ((bowlInit m n).find? (fun e => e.name == n)).isSome := by
  unfold bowlInit
  split
  · rename_i hany
    rw [List.find?_isSome]
    rcases List.any_eq_true.mp hany with ⟨e, hem, hen⟩
    exact ⟨e, hem, hen⟩
  · rw [List.find?_isSome]
    refine ⟨{ name := n, runs := 0, wkts := 0, balls := 0 }, ?_, by simp⟩
    simp

theorem scanQuota_props (bowlers : List SimPlayer) :
    ∀ fuel idx (m : List BowlCardEntry),
      (∀ x, ballsOf (scanQuota bowlers idx fuel m).1 x = ballsOf m x) ∧
      sumBalls (scanQuota bowlers idx fuel m).1 = sumBalls m ∧
      (∀ e ∈ (scanQuota bowlers idx fuel m).1, e ∈ m ∨ e.balls = 0) ∧
      ((m.map (fun e => e.name)).Nodup →
        ((scanQuota bowlers idx fuel m).1.map (fun e => e.name)).Nodup) := by
  intro fuel
  induction fuel with
  | zero =>
    intro idx m
    exact ⟨fun x => rfl, rfl, fun e he => Or.inl he, fun h => h⟩
  | succ n ih =>
    intro idx m
    simp only [scanQuota]
    split
    · exact ⟨fun x => ballsOf_bowlInit m _ x, sumBalls_bowlInit m _,
        mem_bowlInit m _, names_nodup_bowlInit m _⟩
    · obtain ⟨ih1, ih2, ih3, ih4⟩ :=
        ih ((idx + 1) % bowlers.length) (bowlInit m (bowlers.getD idx dummyPlayer).name)
      refine ⟨?_, ?_, ?_, ?_⟩
      · intro x
        rw [ih1 x, ballsOf_bowlInit]
      · rw [ih2, sumBalls_bowlInit]
      · intro e he
        rcases ih3 e he with hm | hz
        · exact mem_bowlInit m _ e hm
        · exact Or.inr hz
      · intro hnd
        exact ih4 (names_nodup_bowlInit m _ hnd)

theorem scanQuota_found (bowlers : List SimPlayer) :
    ∀ fuel idx (m : List BowlCardEntry) (j : Nat),
      (scanQuota bowlers idx fuel m).2 = some j →
      ballsOf (scanQuota bowlers idx fuel m).1 (bowlers.getD j dummyPlayer).name < 24 ∧
      (((scanQuota bowlers idx fuel m).1.find?
        (fun e => e.name == (bowlers.getD j dummyPlayer).name)).isSome) := by
  intro fuel
  induction fuel with
  | zero => intro idx m j h; cases h
  | succ n ih =>
    intro idx m j h
    simp only [scanQuota] at h ⊢
    split at h
    · rename_i hlt
      dsimp only at h
      cases h
      rw [if_pos hlt]
      exact ⟨hlt, find?_bowlInit_self m _⟩
    · rename_i hge
      rw [if_neg hge]
      exact ih _ _ j h

theorem selectBowler_props (p11 bowlers : List SimPlayer) (ball : Nat)
    (m : List BowlCardEntry) :
    (∀ e ∈ (selectBowler p11 bowlers ball m).1, e ∈ m ∨ e.balls = 0) ∧
    (∀ x, ballsOf (selectBowler p11 bowlers ball m).1 x = ballsOf m x) ∧
    sumBalls (selectBowler p11 bowlers ball m).1 = sumBalls m ∧
    ((m.map (fun e => e.name)).Nodup →
      ((selectBowler p11 bowlers ball m).1.map (fun e => e.name)).Nodup) ∧
    (((selectBowler p11 bowlers ball m).1.find?
      (fun e => e.name == (selectBowler p11 bowlers ball m).2.name)).isSome) ∧
    (ballsOf m (selectBowler p11 bowlers ball m).2.name < 24 ∨
      ∀ p ∈ p11, 24 ≤ ballsOf m p.name) := by
  simp only [selectBowler]
  obtain ⟨sBalls, sSum, sMem, sNodup⟩ :=
    scanQuota_props bowlers bowlers.length (((ball - 1) / 6) % bowlers.length) m
  rcases hscan : scanQuota bowlers (((ball - 1) / 6) % bowlers.length) bowlers.length m
    with ⟨m1, r⟩
  rw [hscan] at sBalls sSum sMem sNodup
  dsimp only at sBalls sSum sMem sNodup
  cases r with
  | some j =>
    obtain ⟨hlt, hpres⟩ := scanQuota_found bowlers bowlers.length
      (((ball - 1) / 6) % bowlers.length) m j (by rw [hscan])
    rw [hscan] at hlt hpres
    dsimp only at sBalls sSum sMem sNodup hlt hpres ⊢
    exact ⟨sMem, sBalls, sSum, sNodup, hpres, Or.inl (by rw [← sBalls]; exact hlt)⟩
  | none =>
    dsimp only at sBalls sSum sMem sNodup ⊢
    cases hpt : p11.find? (fun p =>
        match m1.find? (fun e => e.name == p.name) with
        | none => true
        | some e => e.balls < 24) with
    | some p =>
      dsimp only
      refine ⟨?_, ?_, ?_, ?_, find?_bowlInit_self _ _, ?_⟩
      · intro e he
        rcases mem_bowlInit _ _ e he with hm | hz
        · exact sMem e hm
        · exact Or.inr hz
      · intro x
        rw [ballsOf_bowlInit, sBalls]
      · rw [sumBalls_bowlInit, sSum]
      · intro hnd
        exact names_nodup_bowlInit _ _ (sNodup hnd)
      · left
        have hp := List.find?_some hpt
        rw [← sBalls p.name]
        revert hp
        cases hfe : m1.find? (fun e => e.name == p.name) with
        | none =>
          intro _
          unfold ballsOf
          rw [hfe]
          simp
        | some e =>
          intro hp
          unfold ballsOf
          rw [hfe]
          simp only [hfe, Option.map_some', Option.getD_some] at hp ⊢
          simpa using hp
    | none =>
      dsimp only
      refine ⟨?_, ?_, ?_, ?_, find?_bowlInit_self _ _, ?_⟩
      · intro e he
        rcases mem_bowlInit _ _ e he with hm | hz
        · exact sMem e hm
        · exact Or.inr hz
      · intro x
        rw [ballsOf_bowlInit, sBalls]
      · rw [sumBalls_bowlInit, sSum]
      · intro hnd
        exact names_nodup_bowlInit _ _ (sNodup hnd)
      · right
        intro p hp
        have hfalse := List.find?_eq_none.mp hpt p hp
        rw [← sBalls p.name]
        revert hfalse
        cases hfe : m1.find? (fun e => e.name == p.name) with
        | none => intro hfalse; simp at hfalse
        | some e =>
          intro hfalse
          unfold ballsOf
          rw [hfe]
          simp only [Option.map_some', Option.getD_some]
          simpa using hfalse


theorem find?_name_of_mem_nodup (m : List BowlCardEntry) (e : BowlCardEntry)
    (hmem : e ∈ m) (hnd : (m.map (fun x => x.name)).Nodup) :
    m.find? (fun x => x.name == e.name) = some e := by
  induction m with
  | nil => cases hmem
  | cons a l ih =>
    rcases List.mem_cons.mp hmem with he | hm
    · rw [he]
      simp [List.find?]
    · have hne : (a.name == e.name) = false := by
        simp only [List.map_cons, List.nodup_cons] at hnd
        have hin : e.name ∈ l.map (fun x => x.name) := List.mem_map_of_mem _ hm
        simp only [beq_eq_false_iff_ne, ne_eq]
        intro hc
        exact hnd.1 (hc ▸ hin)
      simp only [List.find?, hne]
      simp only [List.map_cons, List.nodup_cons] at hnd
      exact ih hm hnd.2

theorem ballsOf_eq_of_mem_nodup (m : List BowlCardEntry) (e : BowlCardEntry)
    (hmem : e ∈ m) (hnd : (m.map (fun x => x.name)).Nodup) :
    ballsOf m e.name = e.balls := by
  unfold ballsOf
  rw [find?_name_of_mem_nodup m e hmem hnd]
  rfl

theorem ballsOf_cons (a : BowlCardEntry) (l : List BowlCardEntry) (x : String) :
    ballsOf (a :: l) x = if a.name == x then a.balls else ballsOf l x := by
  by_cases h : (a.name == x) = true
  · simp [ballsOf, List.find?, h]
  · have hb : (a.name == x) = false := by simpa using h
    simp [ballsOf, List.find?, hb]

theorem bowlUpdate_map_name (m : List BowlCardEntry) (n : String)
    (f : BowlCardEntry → BowlCardEntry) (hf : ∀ e, (f e).name = e.name) :
    (bowlUpdate m n f).map (fun e => e.name) = m.map (fun e => e.name) := by
  unfold bowlUpdate
  rw [List.map_map]
  apply List.map_congr_left
  intro a _
  simp only [Function.comp]
  split
  · exact hf a
  · rfl

theorem bowlUpdate_id (m : List BowlCardEntry) (n : String)
    (f : BowlCardEntry → BowlCardEntry) (h : ∀ e ∈ m, (e.name == n) = false) :
    bowlUpdate m n f = m := by
  induction m with
  | nil => rfl
  | cons a l ih =>
    have ha := h a (List.mem_cons_self a l)
    have ht : ∀ e ∈ l, (e.name == n) = false :=
      fun e he => h e (List.mem_cons_of_mem a he)
    unfold bowlUpdate
    rw [List.map_cons, if_neg (by simp [ha])]
    show a :: bowlUpdate l n f = a :: l
    rw [ih ht]

theorem bowlUpdate_sumBalls (m : List BowlCardEntry) (n : String)
    (hnd : (m.map (fun e => e.name)).Nodup)
    (hsome : (m.find? (fun e => e.name == n)).isSome = true) :
    sumBalls (bowlUpdate m n (fun e => { e with balls := e.balls + 1 })) =
      sumBalls m + 1 := by
  induction m with
  | nil => simp [List.find?] at hsome
  | cons a l ih =>
    by_cases h : (a.name == n) = true
    · have han : a.name = n := by simpa using h
      have hl : ∀ e ∈ l, (e.name == n) = false := by
        intro e he
        simp only [List.map_cons, List.nodup_cons] at hnd
        have hin : e.name ∈ l.map (fun x => x.name) := List.mem_map_of_mem _ he
        simp only [beq_eq_false_iff_ne, ne_eq]
        intro hc
        apply hnd.1
        rw [han, ← hc]
        exact hin
      unfold bowlUpdate
      rw [List.map_cons, if_pos h]
      show sumBalls ({ a with balls := a.balls + 1 } ::
        bowlUpdate l n (fun e => { e with balls := e.balls + 1 })) = _
      rw [bowlUpdate_id l n _ hl]
      simp only [sumBalls, List.map_cons, List.sum_cons]
      omega
    · have hb : (a.name == n) = false := by simpa using h
      simp only [List.find?, hb] at hsome
      simp only [List.map_cons, List.nodup_cons] at hnd
      unfold bowlUpdate
      rw [List.map_cons, if_neg h]
      show sumBalls (a :: bowlUpdate l n (fun e => { e with balls := e.balls + 1 })) = _
      have hih := ih hnd.2 hsome
      simp only [sumBalls, List.map_cons, List.sum_cons] at hih ⊢
      omega

theorem bowlUpdate_cap (m : List BowlCardEntry) (n : String)
    (hnd : (m.map (fun e => e.name)).Nodup)
    (hcap : ∀ e ∈ m, e.balls ≤ 24)
    (hlt : ballsOf m n < 24) :
    ∀ e ∈ bowlUpdate m n (fun e => { e with balls := e.balls + 1 }), e.balls ≤ 24 := by
  intro e he
  unfold bowlUpdate at he
  rcases List.mem_map.mp he with ⟨a, ha, hae⟩
  subst hae
  by_cases h : (a.name == n) = true
  · have han : a.name = n := by simpa using h
    have hab : a.balls = ballsOf m n := by
      rw [← han, ballsOf_eq_of_mem_nodup m a ha hnd]
    show (if (a.name == n) = true then ({ a with balls := a.balls + 1 } : BowlCardEntry)
      else a).balls ≤ 24
    rw [if_pos h]
    show a.balls + 1 ≤ 24
    omega
  · show (if (a.name == n) = true then ({ a with balls := a.balls + 1 } : BowlCardEntry)
      else a).balls ≤ 24
    rw [if_neg h]
    exact hcap a ha

theorem bowlUpdate_sum_preserve (m : List BowlCardEntry) (n : String)
    (f : BowlCardEntry → BowlCardEntry) (hfb : ∀ e, (f e).balls = e.balls) :
    sumBalls (bowlUpdate m n f) = sumBalls m := by
  unfold sumBalls bowlUpdate
  rw [List.map_map]
  apply congrArg
  apply List.map_congr_left
  intro a _
  simp only [Function.comp]
  split
  · exact hfb a
  · rfl

theorem bowlUpdate_cap_preserve (m : List BowlCardEntry) (n : String)
    (f : BowlCardEntry → BowlCardEntry) (hfb : ∀ e, (f e).balls = e.balls)
    (hcap : ∀ e ∈ m, e.balls ≤ 24) :
    ∀ e ∈ bowlUpdate m n f, e.balls ≤ 24 := by
  intro e he
  unfold bowlUpdate at he
  rcases List.mem_map.mp he with ⟨a, ha, hae⟩
  subst hae
  show (if (a.name == n) = true then f a else a).balls ≤ 24
  split
  · rw [hfb]
    exact hcap a ha
  · exact hcap a ha


theorem sum_ite_le (s : String) (b : Nat) (names : List String)
    (hnd : names.Nodup) :
    (names.map (fun x => if s == x then b else 0)).sum ≤ b := by
  induction names with
  | nil => simp
  | cons x r ih =>
    simp only [List.nodup_cons] at hnd
    by_cases h : (s == x) = true
    · have hsx : s = x := by simpa using h
      have hz : (r.map (fun y => if s == y then b else 0)).sum = 0 := by
        apply List.sum_eq_zero
        intro z hzm
        rcases List.mem_map.mp hzm with ⟨y, hy, hyz⟩
        rw [← hyz, if_neg]
        intro hc
        have hsy : s = y := by simpa using hc
        exact hnd.1 (by rw [← hsx, hsy]; exact hy)
      simp only [List.map_cons, List.sum_cons, if_pos h, hz]
      omega
    · simp only [List.map_cons, List.sum_cons, if_neg h]
      have hih := ih hnd.2
      omega

theorem sum_ballsOf_cons_le (a : BowlCardEntry) (l : List BowlCardEntry)
    (names : List String) :
    (names.map (fun x => ballsOf (a :: l) x)).sum ≤
      (names.map (fun x => if a.name == x then a.balls else 0)).sum +
      (names.map (fun x => ballsOf l x)).sum := by
  induction names with
  | nil => simp
  | cons x r ih =>
    simp only [List.map_cons, List.sum_cons]
    rw [ballsOf_cons]
    by_cases h : (a.name == x) = true
    · rw [if_pos h, if_pos h]
      omega
    · rw [if_neg h, if_neg h]
      omega

theorem sum_ballsOf_le (m : List BowlCardEntry) (names : List String)
    (hnd : names.Nodup) :
    (names.map (fun x => ballsOf m x)).sum ≤ sumBalls m := by
  induction m with
  | nil =>
    have hz : (names.map (fun x => ballsOf ([] : List BowlCardEntry) x)).sum = 0 := by
      apply List.sum_eq_zero
      intro z hzm
      rcases List.mem_map.mp hzm with ⟨y, _, hyz⟩
      rw [← hyz]
      rfl
    simp [hz, sumBalls]
  | cons a l ih =>
    have h1 := sum_ballsOf_cons_le a l names
    have h2 := sum_ite_le a.name a.balls names hnd
    have hs : sumBalls (a :: l) = a.balls + sumBalls l := by
      simp [sumBalls]
    omega

theorem sum_map_const_nat (l : List SimPlayer) (c : Nat) :
    (l.map (fun _ => c)).sum = c * l.length := by
  induction l with
  | nil => simp
  | cons a t ih =>
    simp only [List.map_cons, List.sum_cons, List.length_cons, ih]
    ring

theorem bowl_core (bp bw : List SimPlayer) (ball : Nat) (m : List BowlCardEntry)
    (f2 : BowlCardEntry → BowlCardEntry)
    (hf2b : ∀ e, (f2 e).balls = e.balls) (hf2n : ∀ e, (f2 e).name = e.name)
    (hble : ball ≤ 120) (hb1 : 1 ≤ ball)
    (hsum : sumBalls m = ball - 1)
    (hnd : (m.map (fun e => e.name)).Nodup) :
    sumBalls (bowlUpdate (bowlUpdate (selectBowler bp bw ball m).1
        (selectBowler bp bw ball m).2.name (fun e => { e with balls := e.balls + 1 }))
        (selectBowler bp bw ball m).2.name f2) = ball ∧
    ((bowlUpdate (bowlUpdate (selectBowler bp bw ball m).1
        (selectBowler bp bw ball m).2.name (fun e => { e with balls := e.balls + 1 }))
        (selectBowler bp bw ball m).2.name f2).map (fun e => e.name)).Nodup ∧
    (5 ≤ bp.length → (bp.map (fun p => p.name)).Nodup →
      (∀ e ∈ m, e.balls ≤ 24) →
      ∀ e ∈ bowlUpdate (bowlUpdate (selectBowler bp bw ball m).1
        (selectBowler bp bw ball m).2.name (fun e => { e with balls := e.balls + 1 }))
        (selectBowler bp bw ball m).2.name f2, e.balls ≤ 24) := by
  obtain ⟨sMem, sBalls, sSum, sNodup, sPres, sQuota⟩ := selectBowler_props bp bw ball m
  have hnd1 : ((selectBowler bp bw ball m).1.map (fun e => e.name)).Nodup := sNodup hnd
  refine ⟨?_, ?_, ?_⟩
  · rw [bowlUpdate_sum_preserve _ _ f2 hf2b,
      bowlUpdate_sumBalls _ _ hnd1 sPres, sSum, hsum]
    omega
  · rw [bowlUpdate_map_name _ _ f2 hf2n,
      bowlUpdate_map_name _ _ (fun e => { e with balls := e.balls + 1 })
        (fun e => rfl)]
    exact hnd1
  · intro h5 hbp hcap
    rcases sQuota with hlt | hall
    · have hlt1 : ballsOf (selectBowler bp bw ball m).1
          (selectBowler bp bw ball m).2.name < 24 := by
        rw [sBalls]
        exact hlt
      have hcap1 : ∀ e ∈ (selectBowler bp bw ball m).1, e.balls ≤ 24 := by
        intro e he
        rcases sMem e he with hm | hz
        · exact hcap e hm
        · omega
      exact bowlUpdate_cap_preserve _ _ f2 hf2b
        (bowlUpdate_cap _ _ hnd1 hcap1 hlt1)
    · exfalso
      have h24 : (bp.map (fun p => ballsOf m p.name)).sum ≤ sumBalls m := by
        have hle := sum_ballsOf_le m (bp.map (fun p => p.name)) hbp
        rw [List.map_map] at hle
        simpa [Function.comp] using hle
      have hge : (bp.map (fun _ => (24 : Nat))).sum ≤
          (bp.map (fun p => ballsOf m p.name)).sum :=
        List.sum_le_sum hall
      rw [sum_map_const_nat] at hge
      omega


theorem inningsStep_bowl (rand : Nat → Frac) (bl bw bp : List SimPlayer)
    (tg : Option Int) (ball : Nat) (st : InningsState)
    (hble : ball ≤ 120) (hb1 : 1 ≤ ball)
    (hsum : sumBalls st.bowlCard = ball - 1)
    (hnd : (st.bowlCard.map (fun e => e.name)).Nodup) :
    sumBalls (inningsStep rand bl bw bp tg ball st).bowlCard = ball ∧
    ((inningsStep rand bl bw bp tg ball st).bowlCard.map (fun e => e.name)).Nodup ∧
    (5 ≤ bp.length → (bp.map (fun p => p.name)).Nodup →
      (∀ e ∈ st.bowlCard, e.balls ≤ 24) →
      ∀ e ∈ (inningsStep rand bl bw bp tg ball st).bowlCard, e.balls ≤ 24) := by
  unfold inningsStep
  dsimp only
  split_ifs <;>
    exact bowl_core bp bw ball st.bowlCard _ (fun e => rfl) (fun e => rfl)
      hble hb1 hsum hnd

theorem inningsLoop_bowl (rand : Nat → Frac) (bl bw bp : List SimPlayer)
    (tg : Option Int) :
    ∀ (fuel ball : Nat) (st : InningsState),
      ball + fuel = 121 → 1 ≤ ball →
      sumBalls st.bowlCard = ball - 1 →
      (st.bowlCard.map (fun e => e.name)).Nodup →
      sumBalls (inningsLoop rand bl bw bp tg fuel ball st).bowlCard ≤ 120 ∧
      (5 ≤ bp.length → (bp.map (fun p => p.name)).Nodup →
        (∀ e ∈ st.bowlCard, e.balls ≤ 24) →
        ∀ e ∈ (inningsLoop rand bl bw bp tg fuel ball st).bowlCard,
          e.balls ≤ 24) := by
  intro fuel
  induction fuel with
  | zero =>
    intro ball st hf hb1 hsum hnd
    simp only [inningsLoop]
    refine ⟨by omega, ?_⟩
    intro _ _ hcap
    exact hcap
  | succ n ih =>
    intro ball st hf hb1 hsum hnd
    have hble : ball ≤ 120 := by omega
    simp only [inningsLoop]
    rw [if_neg (by omega : ¬ 120 < ball)]
    by_cases hbrk : inningsBreak tg st = true
    · rw [if_pos hbrk]
      refine ⟨by omega, ?_⟩
      intro _ _ hcap
      exact hcap
    · rw [if_neg hbrk]
      obtain ⟨s1, s2, s3⟩ := inningsStep_bowl rand bl bw bp tg ball st hble hb1 hsum hnd
      obtain ⟨l1, l2⟩ := ih (ball + 1) (inningsStep rand bl bw bp tg ball st)
        (by omega) (by omega) (by rw [s1]; omega) s2
      refine ⟨l1, ?_⟩
      intro h5 hbp hcap
      exact l2 h5 hbp (s3 h5 hbp hcap)


/-- C7: every simulated innings, whatever the teams, records at most 120
deliveries on the bowling card; and whenever the bowling side fields at
least five distinctly named players in its eleven — so the part-timer
fallback always finds a fresh bowler — no single bowler is recorded with
more than 24 balls; quota-exhausted bowlers are skipped by the rotation
scan. -/
theorem bowler_quota_with_five_bowlers (rand : Nat → Frac)
    (stats0 : List PlayerStat) (k0 : Nat) (batTeam bowlTeam : TourneyTeam)
    (target : Option Int) (pitch : String) :
    sumBalls (simulateInnings rand stats0 k0 batTeam bowlTeam target pitch).bowl
      ≤ 120 ∧
    (5 ≤ bowlTeam.playing11.length →
      (bowlTeam.playing11.map (fun p => p.name)).Nodup →
      ∀ e ∈ (simulateInnings rand stats0 k0 batTeam bowlTeam target pitch).bowl,
        e.balls ≤ 24) := by
  unfold simulateInnings
  dsimp only
  refine ⟨(inningsLoop_bowl rand _ _ _ target 120 1 _ (by omega) (by omega)
      ?_ ?_).1, ?_⟩
  · rfl
  · simp
  · intro h5 hnd
    refine (inningsLoop_bowl rand _ _ _ target 120 1 _ (by omega) (by omega)
      ?_ ?_).2 h5 hnd ?_
    · rfl
    · simp
    · intro e he
      exact absurd he (List.not_mem_nil e)

/-- The quota theorem holds of the concrete five-bowler innings. -/
theorem bowler_quota_with_five_bowlers_witness :
    5 ≤ bowlW.playing11.length ∧
    (bowlW.playing11.map (fun p => p.name)).Nodup ∧
    sumBalls witInnings.bowl ≤ 120 ∧
    (∀ e ∈ witInnings.bowl, e.balls ≤ 24) :=
  ⟨by decide, by decide,
    (bowler_quota_with_five_bowlers randCE [] 0 batW bowlW none "flat").1,
    (bowler_quota_with_five_bowlers randCE [] 0 batW bowlW none "flat").2
      (by decide) (by decide)⟩

/-- With a one-bowler side the quota is breached: the chase of 25 takes 26
deliveries and all 26 are recorded against the same bowler, because the
overflow fallback hands the over back to the exhausted bowler. -/
theorem two_bowler_innings_exceeds_quota :
    ∃ e ∈ ceInnings.bowl, 24 < e.balls := by decide


/-- C10: before a tournament run, each claimed team keeps its submitted
lineup as a prefix, every appended player is drawn from the team's roster
and is not already named in the submitted lineup, a full submitted eleven
is left untouched, only teams with a nonempty prepared lineup enter the
tournament, and with fewer than two such teams the engine reports the
simulation error instead of producing a result. -/
theorem simulation_gate_autofill (r : Room) :
    (∀ t ∈ r.teams, t.isTaken = true →
      (prepareTeam r.squads t).playing11.take (submittedXI r.squads t).length =
        submittedXI r.squads t ∧
      (∀ p ∈ (prepareTeam r.squads t).playing11.drop
          (submittedXI r.squads t).length,
        (∃ e ∈ t.roster, p.name = e.name ∧ p.roleKey = e.roleKey) ∧
        ((submittedXI r.squads t).any (fun x => x.name == p.name)) = false) ∧
      (11 ≤ (submittedXI r.squads t).length →
        (prepareTeam r.squads t).playing11 = submittedXI r.squads t)) ∧
    (∀ pt ∈ prepareTourneyTeams r,
      0 < pt.playing11.length ∧ pt.team ∈ r.teams ∧ pt.team.isTaken = true) ∧
    runSimulationLogic r =
      (if (prepareTourneyTeams r).length < 2 then
        Except.error "Need at least 2 teams with players to simulate!"
      else Except.ok (prepareTourneyTeams r)) := by
  refine ⟨?_, ?_, rfl⟩
  · intro t ht htaken
    have hXI : (prepareTeam r.squads t).playing11 =
        (if (submittedXI r.squads t).length < 11 ∧ 0 < t.roster.length then
          submittedXI r.squads t ++
            ((t.roster.filter (fun p =>
              ¬ (submittedXI r.squads t).any (fun x => x.name == p.name))).map
              (fun e => ({ name := e.name, roleKey := e.roleKey } : SimPlayer))).take
              (11 - (submittedXI r.squads t).length)
        else submittedXI r.squads t) := rfl
    rw [hXI]
    by_cases hc : (submittedXI r.squads t).length < 11 ∧ 0 < t.roster.length
    · rw [if_pos hc]
      refine ⟨List.take_left _ _, ?_, ?_⟩
      · rw [List.drop_left]
        intro p hp
        have hp2 := List.mem_of_mem_take hp
        rcases List.mem_map.mp hp2 with ⟨e, he, hep⟩
        rcases List.mem_filter.mp he with ⟨her, hpred⟩
        subst hep
        refine ⟨⟨e, her, rfl, rfl⟩, ?_⟩
        simpa using hpred
      · intro h11
        exact absurd hc.1 (by omega)
    · rw [if_neg hc]
      refine ⟨List.take_length _, ?_, fun _ => rfl⟩
      rw [List.drop_length]
      intro p hp
      exact absurd hp (List.not_mem_nil p)
  · intro pt hpt
    rcases List.mem_filter.mp hpt with ⟨hmem, hlen⟩
    rcases List.mem_map.mp hmem with ⟨t, htf, hpt2⟩
    rcases List.mem_filter.mp htf with ⟨htm, htk⟩
    refine ⟨by simpa using hlen, ?_, ?_⟩
    · rw [← hpt2]
      exact htm
    · rw [← hpt2]
      exact htk

/-- The gate theorem applied to the one-team squad room: the stored
one-player lineup survives as a prefix of the padded eleven, and with a
single prepared team the run reports the error. -/
theorem simulation_gate_autofill_witness :
    (squadRoom.teams.getD 0 teamA ∈ squadRoom.teams ∧
      (squadRoom.teams.getD 0 teamA).isTaken = true) ∧
    (prepareTeam squadRoom.squads (squadRoom.teams.getD 0 teamA)).playing11.take 1 =
      [{ name := "x", roleKey := "wk" }] ∧
    runSimulationLogic squadRoom =
      Except.error "Need at least 2 teams with players to simulate!" := by
  have h := simulation_gate_autofill squadRoom
  refine ⟨⟨by decide, by decide⟩, ?_, ?_⟩
  · exact (h.1 (squadRoom.teams.getD 0 teamA) (by decide) (by decide)).1
  · rw [h.2.2]
    rfl

end IPL
